import Mathlib

/-!
# builder-core: the execution engine, the tag resolver and the image ordering

A shallow embedding of

* `src/builder/builder.go`: `Builder.BuildCommandSequence`, `Builder.setup`,
  `Builder.cleanWorkdir`, `Builder.generateWorkDir`,
  `Builder.attemptToDeleteTemporaryUUIDTag`;
* `src/parser/tag.go`: `NewTag`, `tag.Evaluate`;
* `src/dclient/api_images_slice.go`: `APIImagesSlice.Len`, `Less`, `Swap`.

The builder talks to the outside world (temporary directories, the archive
library, the path sandbox, the docker client, the commands of a SubSequence).
Every such call is an `Event`: the call, its arguments and what it returned.
Each function of the builder takes the history `hist` (the calls made before it
was entered) and returns, next to its Go result and the new state, the events
it made itself, in the order the Go code makes them.  What a call returns is
read from an `Env`: a function of all the calls made so far and of the call's
arguments, so the same call may answer differently at different moments of a
run.  The regular files of the file system are kept in the state
(`State.fs`), by their path, so that the content of the workdir after `setup`
can be stated.
-/

namespace BuilderCore

/-! ## Data model -/

/-- Go `error` values.  The only distinction the builder makes is the type
switch of `builder.go:131`: `parser.NilClientError` against everything else. -/
inductive Err where
  | NilClientError (msg : String)
  | other (msg : String)
deriving DecidableEq, Repr

/-- The case `parser.NilClientError` of the type switch at `builder.go:131`. -/
def Err.isNilClientError : Err → Bool
  | Err.NilClientError _ => true
  | Err.other _ => false

/-- Handle of an attached backend (`dockerclient.DockerClient`); a Builder
without backend has `none` where the Go field is `nil`. -/
structure DockerClient where
  endpoint : String
deriving DecidableEq, Repr

/-- The fields of `docker.APIImages` this repository reads. -/
structure APIImages where
  ID : String
  RepoTags : List String
  Created : Int
deriving DecidableEq, Repr

/-- The command variants of `parser.DockerCmd`, as constructed in
`setup_test.go:29-47`. -/
inductive DockerCmd where
  | BuildCmd
  | TagCmd (Repo Tag : String)
  | PushCmd (Image Tag : String)
deriving DecidableEq, Repr

/-- The Go struct `parser.SubSequenceMetadata`. -/
structure SubSequenceMetadata where
  Name : String
  Dockerfile : String
  UUID : String
deriving DecidableEq, Repr

/-- The Go struct `parser.SubSequence`. -/
structure SubSequence where
  Metadata : SubSequenceMetadata
  SubCommand : List DockerCmd
deriving DecidableEq, Repr

/-- The Go struct `parser.CommandSequence`. -/
structure CommandSequence where
  Commands : List SubSequence
deriving DecidableEq, Repr

/-- The Go struct `parser.DockerCmdOpts` built at `builder.go:117-125` (the two
output sinks, which are write-only, are left out). -/
structure DockerCmdOpts where
  DockerClient : Option DockerClient
  Image : String
  ImageUUID : String
  SkipPush : Bool
  Workdir : String
deriving DecidableEq, Repr

/-- Modelled from the spec: the states of `filecheck.TrustedFilePath` (the
package `filecheck` is not among the sources); the spec gives
`Unchecked`, `OK` and `Error`, and `builder.go:196` compares with `OK`. -/
inductive TrustedFilePathState where
  | Unchecked
  | OK
  | Error
deriving DecidableEq, Repr

/-- What `setup` reads of a `filecheck.TrustedFilePath` after `Sanitize()`: the
fields `State` and `Error` and the result of the method `Top()`. -/
structure TrustedFilePath where
  State : TrustedFilePathState
  Error : Option Err
  Top : String
deriving DecidableEq, Repr

/-- A path as the list of its components, `.` and `..` resolved. -/
abbrev Path := List String

/-- The file system: for each path, the content of the regular file there,
`none` when there is no regular file at that path. -/
abbrev FS := Path → Option String

/-- The files of an archive, or below a directory: for each path relative to
the directory, the content of the file there. -/
abbrev Files := Path → Option String

/-- One call to the outside world, with its arguments and what it returned. -/
inductive Event where
  | TempDir (tmp : String) (err : Option Err)
  | RmRF (path : String) (err : Option Err)
  | MkdirP (path : String) (err : Option Err)
  | NewTrustedFilePath (file top : String) (err : Option Err)
  | Sanitize (file top : String) (p : TrustedFilePath)
  | TarWithOptions (srcPath : String) (err : Option Err)
  | Untar (dest : String) (err : Option Err)
  | CpWithArgs (src dst : String) (err : Option Err)
  | Run (cmd : DockerCmd) (opts : DockerCmdOpts) (imageID : String) (err : Option Err)
  | LatestImageByRegex (regex : String) (image : APIImages) (err : Option Err)
  | RemoveImage (tag : String) (err : Option Err)
deriving DecidableEq, Repr

/-- The outside world.  Each field answers one kind of call, from the log of
all calls made so far and the arguments of the call.  `SkipPush` is the package
variable of `builder.go:23`; `MatchString` is `regexp.MatchString`, a pure
function of the pattern and the text. -/
structure Env where
  SkipPush : Bool
  TempDir : List Event → String × Option Err
  RmRF : List Event → String → Option Err
  MkdirP : List Event → String → Option Err
  NewTrustedFilePath : List Event → String → String → Option Err
  Sanitize : List Event → String → String → TrustedFilePath
  TarWithOptions : List Event → String → Option Err
  Untar : List Event → String → Option Err
  CpWithArgs : List Event → String → String → Option Err
  Run : List Event → DockerCmd → DockerCmdOpts → String × Option Err
  LatestImageByRegex : List Event → String → APIImages × Option Err
  MatchString : String → String → Except Err Bool
  RemoveImage : List Event → String → Option Err

/-- The fields of the Go struct `Builder` that the run reads or writes (the
logger and the two output sinks are left out). -/
structure Builder where
  dockerClient : Option DockerClient
  workdir : String
  nextSubSequence : Option SubSequence
  contextDir : String
deriving DecidableEq, Repr

/-- The state a run threads: the builder and the files. -/
structure State where
  bob : Builder
  fs : FS

/-- What a function of the builder leaves: its Go result (`none` for a `nil`
error), the state, and the calls it made. -/
structure Result where
  err : Option Err
  state : State
  events : List Event

/-! ## Paths and the file operations of `cleanWorkdir` and `setup`

The code names files by strings (`contextDir+"/"+meta.Dockerfile`), which the
operating system resolves component by component.  `cleanPath` is that
resolution, without symbolic links and with every path read from one origin.
`fileutils.RmRF`, `archive.TarWithOptions`, `archive.Untar` and
`fileutils.CpWithArgs` are library calls.  Whether a call succeeds is what the
outside world (`Env`) answers; their effect on the files is modelled on a
successful call, and a failing call leaves the files as they were (what a
half-done extraction leaves behind is not modelled, the run aborts there). -/

/-- The components of a path given as characters, split at `/`; `cur` holds the
characters of the component being read, last first. -/
def pathComponents : List Char → List Char → List String
  | [], cur => [String.mk cur.reverse]
  | c :: rest, cur =>
    if c = '/' then String.mk cur.reverse :: pathComponents rest []
    else pathComponents rest (c :: cur)

/-- Resolve the components of a path one after the other onto `stack`, the
path reached so far, last component first: an empty component and `.` stay
where they are, `..` goes one up (and stays at the top when there), any other
component goes one down. -/
def resolveComponents : List String → List String → List String
  | [], stack => stack
  | comp :: rest, stack =>
    if comp = "" ∨ comp = "." then resolveComponents rest stack
    else if comp = ".." then resolveComponents rest stack.tail
    else resolveComponents rest (comp :: stack)

/-- The path a string names. -/
def cleanPath (path : String) : Path :=
  (resolveComponents (pathComponents path.data []) []).reverse

/-- The path `p` relative to the directory `dir`, `none` when `p` is neither
`dir` nor below it. -/
def relativeTo : Path → Path → Option Path
  | [], p => some p
  | _ :: _, [] => none
  | d :: dir, c :: p => if d = c then relativeTo dir p else none

/-- The files after `fileutils.RmRF(path)`: no file at the path or below it.
Removing the empty path removes nothing. -/
def rmRF (fs : FS) (path : String) : FS :=
  fun p =>
    if path = "" then fs p
    else
      match relativeTo (cleanPath path) p with
      | some _ => none
      | none => fs p

/-- The entries `archive.TarWithOptions` puts in the archive of the directory
`srcPath`: the files below it, by their path relative to it, but those whose
first component is one of `Excludes`. The one pattern the builder passes,
`Dockerfile`, has no wildcard: it excludes the entry of that name at the top of
the directory, a file, or a directory with everything below it. -/
def tarFiles (fs : FS) (srcPath : Path) (excludes : List String) : Files :=
  fun rel =>
    match rel with
    | [] => none
    | first :: _ => if first ∈ excludes then none else fs (srcPath ++ rel)

/-- The files after `archive.Untar` has extracted the archive into the directory
`dest`: a file of the archive replaces the file at that path below `dest`, the
other files stay. -/
def untarFiles (tarStream : Files) (fs : FS) (dest : Path) : FS :=
  fun p =>
    match relativeTo dest p with
    | none => fs p
    | some rel =>
      match tarStream rel with
      | some content => some content
      | none => fs p

/-- The files after `fileutils.CpWithArgs(src, dst, ...)` has copied the regular
file `src` to `dst`. When the files hold no regular file at `src` there is
nothing to copy and they stay as they are. -/
def cpFile (fs : FS) (src dst : Path) : FS :=
  match fs src with
  | none => fs
  | some content => fun p => if p = dst then some content else fs p

/-! ## The builder -/

/-- The method `Builder.SetNextSubSequence` (`builder.go:49-51`). -/
def SetNextSubSequence (s : State) (subSeq : SubSequence) : State :=
  { s with bob := { s.bob with nextSubSequence := some subSeq } }

/-- The method `Builder.generateWorkDir` (`builder.go:225-236`): the name of a
fresh temporary directory, the empty string when `ioutil.TempDir` failed. The
removal registered for process exit is outside a run. -/
def generateWorkDir (env : Env) (hist : List Event) : String × List Event :=
  let r := env.TempDir hist
  match r.2 with
  | some err => ("", [Event.TempDir r.1 (some err)])
  | none => (r.1, [Event.TempDir r.1 none])

/-- The method `Builder.cleanWorkdir` (`builder.go:242-251`). -/
def cleanWorkdir (env : Env) (hist : List Event) (s : State) : Result :=
  let g := generateWorkDir env hist
  let workdir := g.1
  let bob : Builder := { s.bob with workdir := workdir }
  match env.RmRF (hist ++ g.2) workdir with
  | some err =>
    { err := some err, state := { s with bob := bob },
      events := g.2 ++ [Event.RmRF workdir (some err)] }
  | none =>
    let r := env.MkdirP (hist ++ g.2 ++ [Event.RmRF workdir none]) workdir
    { err := r, state := { bob := bob, fs := rmRF s.fs workdir },
      events := g.2 ++ [Event.RmRF workdir none, Event.MkdirP workdir r] }

/-- The part of `Builder.setup` after the path sandbox has answered `OK`
(`builder.go:200-222`): archive the context directory without `Dockerfile`,
extract the archive into the workdir, copy the dockerfile of the SubSequence
to `Dockerfile`. -/
def setupFiles (env : Env) (hist : List Event) (s : State) (md : SubSequenceMetadata)
    (contextDir : String) : Result :=
  let workdir := s.bob.workdir
  match env.TarWithOptions hist contextDir with
  | some err =>
    { err := some err, state := s, events := [Event.TarWithOptions contextDir (some err)] }
  | none =>
    let tarStream := tarFiles s.fs (cleanPath contextDir) ["Dockerfile"]
    let e1 := Event.TarWithOptions contextDir none
    match env.Untar (hist ++ [e1]) workdir with
    | some err =>
      { err := some err, state := s, events := [e1, Event.Untar workdir (some err)] }
    | none =>
      let e2 := Event.Untar workdir none
      let fs1 : FS := untarFiles tarStream s.fs (cleanPath workdir)
      let src := contextDir ++ "/" ++ md.Dockerfile
      let dst := workdir ++ "/Dockerfile"
      match env.CpWithArgs (hist ++ [e1, e2]) src dst with
      | some err =>
        { err := some err, state := { s with fs := fs1 },
          events := [e1, e2, Event.CpWithArgs src dst (some err)] }
      | none =>
        { err := none, state := { s with fs := cpFile fs1 (cleanPath src) (cleanPath dst) },
          events := [e1, e2, Event.CpWithArgs src dst none] }

/-- The method `Builder.setup` (`builder.go:179-223`). -/
def setup (env : Env) (hist : List Event) (s : State) : Result :=
  match s.bob.nextSubSequence with
  | none =>
    { err := some (Err.other "no command sub sequence set, cannot perform setup"),
      state := s, events := [] }
  | some seq =>
    let md := seq.Metadata
    let dockerfile := md.Dockerfile
    match env.NewTrustedFilePath hist dockerfile s.bob.contextDir with
    | some err =>
      { err := some err, state := s,
        events := [Event.NewTrustedFilePath dockerfile s.bob.contextDir (some err)] }
    | none =>
      let e1 := Event.NewTrustedFilePath dockerfile s.bob.contextDir none
      let pathToDockerfile := env.Sanitize (hist ++ [e1]) dockerfile s.bob.contextDir
      let e2 := Event.Sanitize dockerfile s.bob.contextDir pathToDockerfile
      if pathToDockerfile.State ≠ TrustedFilePathState.OK then
        { err := pathToDockerfile.Error, state := s, events := [e1, e2] }
      else
        let r := setupFiles env (hist ++ [e1, e2]) s md pathToDockerfile.Top
        { err := r.err, state := r.state, events := [e1, e2] ++ r.events }

/-- The loop of `attemptToDeleteTemporaryUUIDTag` over `image.RepoTags`
(`builder.go:156-172`). -/
def deleteFirstMatch (env : Env) (hist : List Event) (regex : String) :
    List String → List Event
  | [] => []
  | tag :: rest =>
    match env.MatchString regex tag with
    | Except.error _ => []
    | Except.ok true => [Event.RemoveImage tag (env.RemoveImage hist tag)]
    | Except.ok false => deleteFirstMatch env hist regex rest

/-- The method `Builder.attemptToDeleteTemporaryUUIDTag` (`builder.go:145-173`).
It has no result and leaves the builder as it was; what is returned are the
calls it made.  The image the lookup returned is read whether or not the lookup
returned an error, as in the Go code (`builder.go:152-156`); it is taken as a
value. -/
def attemptToDeleteTemporaryUUIDTag (env : Env) (hist : List Event) (bob : Builder)
    (uuid : String) : List Event :=
  match bob.dockerClient with
  | none => []
  | some _ =>
    let regex := ":" ++ uuid ++ "$"
    let r := env.LatestImageByRegex hist regex
    let e1 := Event.LatestImageByRegex regex r.1 r.2
    e1 :: deleteFirstMatch env (hist ++ [e1]) regex r.1.RepoTags

/-- The inner loop of `BuildCommandSequence` (`builder.go:116-138`) over the
commands still to run, with the current value of the variable `imageID`: the
error it returns with, if any, and the calls made. -/
def runSubCommands (env : Env) (bob : Builder) (seq : SubSequence) :
    List Event → List DockerCmd → String → Option Err × List Event
  | _, [], _ => (none, [])
  | hist, cmd :: rest, imageID =>
    let opts : DockerCmdOpts :=
      { DockerClient := bob.dockerClient
        Image := imageID
        ImageUUID := seq.Metadata.UUID
        SkipPush := env.SkipPush
        Workdir := bob.workdir }
    let r := env.Run hist cmd opts
    let e1 := Event.Run cmd opts r.1 r.2
    match r.2 with
    | none =>
      let out := runSubCommands env bob seq (hist ++ [e1]) rest r.1
      (out.1, e1 :: out.2)
    | some err =>
      if err.isNilClientError then
        let out := runSubCommands env bob seq (hist ++ [e1]) rest r.1
        (out.1, e1 :: out.2)
      else (some err, [e1])

/-- The outer loop of `BuildCommandSequence` (`builder.go:101-142`) over the
SubSequences still to process. -/
def buildSubSequences (env : Env) : List Event → List SubSequence → State → Result
  | _, [], s => { err := none, state := s, events := [] }
  | hist, seq :: rest, s =>
    let c := cleanWorkdir env hist s
    match c.err with
    | some err => { err := some err, state := c.state, events := c.events }
    | none =>
      let t := setup env (hist ++ c.events) (SetNextSubSequence c.state seq)
      match t.err with
      | some err => { err := some err, state := t.state, events := c.events ++ t.events }
      | none =>
        let r := runSubCommands env t.state.bob seq (hist ++ c.events ++ t.events)
          seq.SubCommand ""
        match r.1 with
        | some err =>
          { err := some err, state := t.state, events := c.events ++ t.events ++ r.2 }
        | none =>
          let d := attemptToDeleteTemporaryUUIDTag env (hist ++ c.events ++ t.events ++ r.2)
            t.state.bob seq.Metadata.UUID
          let out := buildSubSequences env (hist ++ c.events ++ t.events ++ r.2 ++ d) rest
            t.state
          { err := out.err, state := out.state,
            events := c.events ++ t.events ++ r.2 ++ d ++ out.events }

/-- The method `Builder.BuildCommandSequence` (`builder.go:100-143`). -/
def BuildCommandSequence (env : Env) (hist : List Event) (commandSequence : CommandSequence)
    (s : State) : Result :=
  buildSubSequences env hist commandSequence.Commands s

/-! ## The tag resolver (`src/parser/tag.go`) -/

/-- A query made to the package `git`. -/
inductive GitQuery where
  | Branch (top : String)
  | Sha (top : String)
  | Tag (top : String)
deriving DecidableEq, Repr

/-- The answers of the package `git` (`git.Branch`, `git.Sha`, `git.Tag`), which
shells out to the version-control tool. -/
structure Git where
  Branch : String → String
  Sha : String → String
  Tag : String → String

/-- The Go struct `tag`. -/
structure tag where
  value : String
deriving DecidableEq, Repr

/-- The function `NewTag` (`tag.go:25-27`). -/
def NewTag (value : String) : tag := { value := value }

/-- The method `tag.Evaluate` (`tag.go:29-40`): the result, and the queries made
to the package `git`. -/
def tag.Evaluate (git : Git) (t : tag) (top : String) : String × List GitQuery :=
  match t.value with
  | "git:branch" => (git.Branch top, [GitQuery.Branch top])
  | "git:rev" | "git:sha" => (git.Sha top, [GitQuery.Sha top])
  | "git:short" | "git:tag" => (git.Tag top, [GitQuery.Tag top])
  | _ => (t.value, [])

/-! ## The image ordering (`src/dclient/api_images_slice.go`) -/

/-- The Go type `APIImagesSlice`. -/
abbrev APIImagesSlice := List APIImages

/-- The method `APIImagesSlice.Len`. -/
def APIImagesSlice.Len (slice : APIImagesSlice) : Nat := slice.length

/-- The method `APIImagesSlice.Less`; `none` is the panic of an index out of
range. -/
def APIImagesSlice.Less (slice : APIImagesSlice) (i j : Nat) : Option Bool :=
  match slice[i]?, slice[j]? with
  | some a, some b => some (decide (a.Created > b.Created))
  | _, _ => none

/-- The method `APIImagesSlice.Swap`; `none` is the panic of an index out of
range. -/
def APIImagesSlice.Swap (slice : APIImagesSlice) (i j : Nat) : Option APIImagesSlice :=
  match slice[i]?, slice[j]? with
  | some a, some b => some ((slice.set i b).set j a)
  | _, _ => none

/-! ## Reading a run

Definitions used to state what a run did: what the calls of a run say about its
result, which commands were run, which tags were looked up and removed. -/

/-- The error with which `cleanWorkdir` or `setup` returns right after this
call, if the call makes it return one. -/
def Event.setupError : Event → Option Err
  | Event.RmRF _ err => err
  | Event.MkdirP _ err => err
  | Event.NewTrustedFilePath _ _ err => err
  | Event.Sanitize _ _ p => if p.State ≠ TrustedFilePathState.OK then p.Error else none
  | Event.TarWithOptions _ err => err
  | Event.Untar _ err => err
  | Event.CpWithArgs _ _ err => err
  | _ => none

/-- The error a command returned, if the call is the run of a command that
returned one. -/
def Event.commandError : Event → Option Err
  | Event.Run _ _ _ err => err
  | _ => none

/-- The error with which the call aborts the run. -/
def Event.abort : Event → Option Err
  | Event.RmRF _ err => err
  | Event.MkdirP _ err => err
  | Event.NewTrustedFilePath _ _ err => err
  | Event.Sanitize _ _ p => if p.State ≠ TrustedFilePathState.OK then p.Error else none
  | Event.TarWithOptions _ err => err
  | Event.Untar _ err => err
  | Event.CpWithArgs _ _ err => err
  | Event.Run _ _ _ (some err) => if err.isNilClientError then none else some err
  | _ => none

/-- The commands run, in order, each with the UUID of the SubSequence it was run
for (`opts.ImageUUID`). -/
def ranCommands : List Event → List (String × DockerCmd)
  | [] => []
  | Event.Run cmd opts _ _ :: rest => (opts.ImageUUID, cmd) :: ranCommands rest
  | _ :: rest => ranCommands rest

/-- The patterns looked up with `LatestImageByRegex`, in order. -/
def lookedUp : List Event → List String
  | [] => []
  | Event.LatestImageByRegex regex _ _ :: rest => regex :: lookedUp rest
  | _ :: rest => lookedUp rest

/-- The tags passed to `RemoveImage`, in order. -/
def removedTags : List Event → List String
  | [] => []
  | Event.RemoveImage tag _ :: rest => tag :: removedTags rest
  | _ :: rest => removedTags rest

/-- The commands of a command sequence in declaration order, each with the UUID
of its SubSequence. -/
def declaredCommands (cs : List SubSequence) : List (String × DockerCmd) :=
  match cs with
  | [] => []
  | seq :: rest => seq.SubCommand.map (fun cmd => (seq.Metadata.UUID, cmd)) ++ declaredCommands rest

/-- Whether the event is the run of a command. -/
def Event.isRun : Event → Bool
  | Event.Run _ _ _ _ => true
  | _ => false

/-- Whether the event is a call of the temporary-tag cleanup. -/
def Event.isCleanup : Event → Bool
  | Event.LatestImageByRegex _ _ _ => true
  | Event.RemoveImage _ _ => true
  | _ => false

/-- No call of the list aborts the run. -/
def Quiet (evs : List Event) : Prop := ∀ ev ∈ evs, ev.abort = none

/-- How a result goes with the calls made: with no error, no call aborts the
run; with the error `e`, the last call aborts the run with `e` and no call
before it aborts the run. -/
def Outcome (res : Option Err) (evs : List Event) : Prop :=
  match res with
  | none => Quiet evs
  | some e => ∃ q ev, evs = q ++ [ev] ∧ Quiet q ∧ ev.abort = some e

/-- An event of the workdir or setup phase: neither a command nor a cleanup call. -/
def Event.isPrep (ev : Event) : Bool := !ev.isRun && !ev.isCleanup

/-- The patterns of the temporary tags of a command sequence, in declaration
order. -/
def declaredPatterns (cs : List SubSequence) : List String :=
  cs.map (fun seq => ":" ++ seq.Metadata.UUID ++ "$")

/-- The run of `cmd` is the run of the first command of a SubSequence of `cs`. -/
def FirstOf (cs : List SubSequence) (cmd : DockerCmd) (opts : DockerCmdOpts) : Prop :=
  ∃ seq ∈ cs, opts.ImageUUID = seq.Metadata.UUID ∧ ∃ b, seq.SubCommand = cmd :: b

/-- The runs of `cmd0` and `cmd` are the runs of two consecutive commands of one
SubSequence of `cs`. -/
def Consecutive (cs : List SubSequence) (cmd0 : DockerCmd) (opts0 : DockerCmdOpts)
    (cmd : DockerCmd) (opts : DockerCmdOpts) : Prop :=
  ∃ seq ∈ cs, opts0.ImageUUID = seq.Metadata.UUID ∧ opts.ImageUUID = seq.Metadata.UUID ∧
    ∃ a b, seq.SubCommand = a ++ cmd0 :: cmd :: b

/-- How the run of a command relates to the event right before it. -/
def Link (cs : List SubSequence) (prev : Option Event) (ev : Event) : Prop :=
  ∀ cmd opts id err, ev = Event.Run cmd opts id err →
    (∃ p, prev = some p) ∧
    (∀ cmd0 opts0 id0 err0, prev = some (Event.Run cmd0 opts0 id0 err0) →
      opts.Image = id0 ∧ Consecutive cs cmd0 opts0 cmd opts) ∧
    ((∀ p, prev = some p → p.isRun = false) → opts.Image = "" ∧ FirstOf cs cmd opts)

/-- Every event of the list is linked to the event before it. -/
def Chained (cs : List SubSequence) : Option Event → List Event → Prop
  | _, [] => True
  | prev, ev :: rest => Link cs prev ev ∧ Chained cs (some ev) rest

/-- The last event of `prev :: evs`. -/
def lastOf : Option Event → List Event → Option Event
  | prev, [] => prev
  | _, ev :: rest => lastOf (some ev) rest

/-- The event is there and is not the run of a command. -/
def NonRun (o : Option Event) : Prop := ∃ p, o = some p ∧ p.isRun = false

/-- What the inner loop knows when it is about to run the next command: either
no command of the SubSequence has run and `imageID` is empty, or the event
before is the run of the command before and `imageID` is what it returned. -/
def Ready (seq : SubSequence) (prev : Option Event) (done : List DockerCmd)
    (imageID : String) : Prop :=
  (NonRun prev ∧ done = [] ∧ imageID = "") ∨
  (∃ d0 cmd0 opts0 id0 err0, prev = some (Event.Run cmd0 opts0 id0 err0) ∧
    done = d0 ++ [cmd0] ∧ imageID = id0 ∧ opts0.ImageUUID = seq.Metadata.UUID)

/-- The characters with a meaning of their own in a Go regular expression, by
code point: backslash, `.`, `+`, `*`, `?`, `(`, `)`, `|`, `[`, `]`, the two
braces, `^`, `$`. -/
def regexMetaChars : List Nat :=
  [92, 46, 43, 42, 63, 40, 41, 124, 91, 93, 123, 125, 94, 36]

/-- A pattern that is literal text: no character of it has a meaning of its own
in a regular expression. -/
def isLiteral (lit : String) : Bool :=
  lit.data.all (fun c => decide (c.toNat ∉ regexMetaChars))

/-- A character of a UUID in its text form: a hexadecimal digit or a dash. -/
def isUUIDChar (c : Char) : Bool :=
  (decide (48 ≤ c.toNat) && decide (c.toNat ≤ 57)) ||
  (decide (97 ≤ c.toNat) && decide (c.toNat ≤ 102)) ||
  (decide (65 ≤ c.toNat) && decide (c.toNat ≤ 70)) ||
  decide (c.toNat = 45)

/-- The text form of a UUID: hexadecimal digits and dashes. -/
def isUUID (u : String) : Bool := u.data.all isUUIDChar

/-- What `regexp.MatchString` does on a pattern that is literal text followed by
`$`: it answers whether the text ends with the literal. -/
def MatchesLiteralAtEnd (matchString : String → String → Except Err Bool) : Prop :=
  ∀ lit text, isLiteral lit = true →
    matchString (lit ++ "$") text = Except.ok (decide (lit.data <:+ text.data))

/-! ## Concrete runs -/

/-- A file system with the context directory `/ctx`: two dockerfiles, one
other file, and a subdirectory with a file named `Dockerfile`. -/
def demoFS : FS := fun p =>
  if p = ["ctx", "Dockerfile"] then some "FROM base"
  else if p = ["ctx", "Dockerfile.base"] then some "FROM scratch"
  else if p = ["ctx", "Gemfile"] then some "gem"
  else if p = ["ctx", "sub", "Dockerfile"] then some "FROM nested"
  else none

/-- A builder with a backend attached, rooted at `/ctx`. -/
def demoBuilder : Builder :=
  { dockerClient := some { endpoint := "unix:///var/run/docker.sock" }
    workdir := ""
    nextSubSequence := none
    contextDir := "/ctx" }

/-- The state before a run. -/
def demoState : State := { bob := demoBuilder, fs := demoFS }

/-- The state before a run of a builder without backend. -/
def demoStateNoBackend : State :=
  { bob := { demoBuilder with dockerClient := none }, fs := demoFS }

/-- The container section `base`, built from `Dockerfile.base`. -/
def demoBase : SubSequence :=
  { Metadata := { Name := "base", Dockerfile := "Dockerfile.base", UUID := "0b5e" }
    SubCommand :=
      [DockerCmd.BuildCmd, DockerCmd.TagCmd "quay.io/base" "v1",
        DockerCmd.PushCmd "quay.io/base" "v1"] }

/-- The container section `app`, built from `Dockerfile`. -/
def demoApp : SubSequence :=
  { Metadata := { Name := "app", Dockerfile := "Dockerfile", UUID := "7d6f" }
    SubCommand :=
      [DockerCmd.BuildCmd, DockerCmd.TagCmd "quay.io/app" "v1",
        DockerCmd.PushCmd "quay.io/app" "v1"] }

/-- Two container sections, `base` then `app`. -/
def demoSequence : CommandSequence := { Commands := [demoBase, demoApp] }

/-- The state in which `setup` is entered for the SubSequence `seq`: the workdir
is `/tmp/bob0`, and no file is below it. -/
def demoSetupState (seq : SubSequence) : State :=
  { bob := { demoBuilder with workdir := "/tmp/bob0", nextSubSequence := some seq }
    fs := demoFS }

/-- The options the commands of `base` are run with in the runs below, up to
the image identifier. -/
def demoOpts (image : String) : DockerCmdOpts :=
  { DockerClient := demoBuilder.dockerClient, Image := image, ImageUUID := "0b5e",
    SkipPush := false, Workdir := "/tmp/bob0" }

/-- An outside world in which every call succeeds: a build returns a new
image, a tag and a push return the image they were given, the lookup returns
an image that carries the temporary tag. -/
def demoEnv : Env :=
  { SkipPush := false
    TempDir := fun hist => ("/tmp/bob" ++ toString hist.length, none)
    RmRF := fun _ _ => none
    MkdirP := fun _ _ => none
    NewTrustedFilePath := fun _ _ _ => none
    Sanitize := fun _ _ top => { State := TrustedFilePathState.OK, Error := none, Top := top }
    TarWithOptions := fun _ _ => none
    Untar := fun _ _ => none
    CpWithArgs := fun _ _ _ => none
    Run := fun _ cmd opts =>
      match cmd with
      | DockerCmd.BuildCmd => ("img-" ++ opts.ImageUUID, none)
      | _ => (opts.Image, none)
    LatestImageByRegex := fun _ regex =>
      ({ ID := "img", RepoTags := ["quay.io/app:v1", "quay.io/app" ++ String.mk regex.data.dropLast],
         Created := 0 }, none)
    MatchString := fun regex text => Except.ok (decide (regex.data.dropLast <:+ text.data))
    RemoveImage := fun _ _ => none }

/-- As `demoEnv`, but the push fails. -/
def pushFailsEnv : Env :=
  { demoEnv with
    Run := fun _ cmd opts =>
      match cmd with
      | DockerCmd.BuildCmd => ("img-" ++ opts.ImageUUID, none)
      | DockerCmd.TagCmd _ _ => (opts.Image, none)
      | DockerCmd.PushCmd _ _ => ("", some (Err.other "push failed")) }

/-- As `demoEnv`, but every command answers that no backend is configured. -/
def noBackendEnv : Env :=
  { demoEnv with Run := fun _ _ _ => ("", some (Err.NilClientError "docker client is nil")) }

/-- As `demoEnv`, but the tag command answers that no backend is configured,
returning the empty identifier next to the error. -/
def tagNilClientEnv : Env :=
  { demoEnv with
    Run := fun _ cmd opts =>
      match cmd with
      | DockerCmd.BuildCmd => ("img-" ++ opts.ImageUUID, none)
      | DockerCmd.TagCmd _ _ => ("", some (Err.NilClientError "docker client is nil"))
      | DockerCmd.PushCmd _ _ => (opts.Image, none) }

/-- As `demoEnv`, but the path sandbox rejects `Dockerfile`. -/
def sandboxFailsEnv : Env :=
  { demoEnv with
    Sanitize := fun _ file top =>
      if file = "Dockerfile" then
        { State := TrustedFilePathState.Error, Error := some (Err.other "file not in context"),
          Top := top }
      else { State := TrustedFilePathState.OK, Error := none, Top := top } }

/-- As `demoEnv`, but the path sandbox leaves every path in the state `Error`
without an error value. -/
def sandboxNilErrorEnv : Env :=
  { demoEnv with
    Sanitize := fun _ _ top =>
      { State := TrustedFilePathState.Error, Error := none, Top := top } }

/-- As `demoEnv`, but the lookup of the temporary tag fails for `base` and the
removal of the tag fails for `app`. -/
def cleanupFailsEnv : Env :=
  { demoEnv with
    LatestImageByRegex := fun _ regex =>
      if regex = ":0b5e$" then
        ({ ID := "", RepoTags := [], Created := 0 }, some (Err.other "no such image"))
      else ({ ID := "img", RepoTags := ["quay.io/app:v1", "quay.io/app:7d6f"], Created := 0 }, none)
    RemoveImage := fun _ _ => some (Err.other "conflict") }

/-- Three images, not in order of creation. -/
def demoImages : APIImagesSlice :=
  [ { ID := "a", RepoTags := [], Created := 20 },
    { ID := "b", RepoTags := [], Created := 30 },
    { ID := "c", RepoTags := [], Created := 10 } ]

/-! ## Lemmas -/

theorem quiet_append {a b : List Event} (ha : Quiet a) (hb : Quiet b) : Quiet (a ++ b) := by
  intro ev hev
  rcases List.mem_append.1 hev with h | h
  · exact ha ev h
  · exact hb ev h

theorem outcome_append {a b : List Event} {res : Option Err} (ha : Quiet a)
    (hb : Outcome res b) : Outcome res (a ++ b) := by
  cases res with
  | none => exact quiet_append ha hb
  | some e =>
    obtain ⟨q, ev, hq, hquiet, hab⟩ := hb
    exact ⟨a ++ q, ev, by simp [hq], quiet_append ha hquiet, hab⟩

theorem outcome_last {res : Option Err} {evs pre post : List Event} {ev : Event} {e : Err}
    (h : Outcome res evs) (hsplit : evs = pre ++ ev :: post) (hab : ev.abort = some e) :
    res = some e ∧ post = [] := by
  cases res with
  | none =>
    have := h ev (by simp [hsplit])
    simp [hab] at this
  | some e0 =>
    obtain ⟨q, ev0, hq, hquiet, hab0⟩ := h
    rw [hq] at hsplit
    have hpost : post = [] := by
      rcases List.eq_nil_or_concat post with hp | ⟨post0, x, hp⟩
      · exact hp
      · exfalso
        rw [hp] at hsplit
        have h2 : q ++ [ev0] = (pre ++ ev :: post0) ++ [x] := by simpa using hsplit
        have h3 := List.append_inj_left' h2 rfl
        have := hquiet ev (by simp [h3])
        simp [hab] at this
    subst hpost
    have h3 := List.append_inj_right' hsplit rfl
    simp at h3
    subst h3
    simp_all

theorem outcome_quiet {res : Option Err} {evs : List Event} (h : Outcome res evs)
    (hq : Quiet evs) : res = none := by
  cases res with
  | none => rfl
  | some e =>
    obtain ⟨q, ev, hevs, _, hab⟩ := h
    have := hq ev (by simp [hevs])
    simp [hab] at this

theorem quiet_singleton {ev : Event} (h : ev.abort = none) : Quiet [ev] := by
  intro x hx
  simp at hx
  subst hx
  exact h

theorem quiet_nil : Quiet [] := by
  intro x hx
  simp at hx

theorem outcome_of_option (q : List Event) (hq : Quiet q) (ev : Event) (r : Option Err)
    (hab : ev.abort = r) : Outcome r (q ++ [ev]) := by
  cases r with
  | none => exact quiet_append hq (quiet_singleton hab)
  | some e => exact ⟨q, ev, rfl, hq, hab⟩

theorem quiet_cons (ev : Event) (evs : List Event) :
    Quiet (ev :: evs) ↔ ev.abort = none ∧ Quiet evs := by
  simp [Quiet]

theorem generateWorkDir_quiet (env : Env) (hist : List Event) :
    Quiet (generateWorkDir env hist).2 := by
  unfold generateWorkDir
  simp only
  split <;> simp [quiet_cons, quiet_nil, Event.abort]

theorem cleanWorkdir_outcome (env : Env) (hist : List Event) (s : State) :
    Outcome (cleanWorkdir env hist s).err (cleanWorkdir env hist s).events := by
  have hg := generateWorkDir_quiet env hist
  unfold cleanWorkdir
  simp only
  generalize generateWorkDir env hist = g at *
  cases h1 : env.RmRF (hist ++ g.2) g.1 with
  | some err => exact outcome_of_option g.2 hg _ _ rfl
  | none =>
    simp only
    have h2 : g.2 ++ [Event.RmRF g.1 none, Event.MkdirP g.1
        (env.MkdirP (hist ++ g.2 ++ [Event.RmRF g.1 none]) g.1)] =
        (g.2 ++ [Event.RmRF g.1 none]) ++ [Event.MkdirP g.1
        (env.MkdirP (hist ++ g.2 ++ [Event.RmRF g.1 none]) g.1)] := by simp
    rw [h2]
    refine outcome_of_option _ (quiet_append hg ?_) _ _ rfl
    simp [quiet_cons, quiet_nil, Event.abort]

theorem setupFiles_outcome (env : Env) (hist : List Event) (s : State)
    (md : SubSequenceMetadata) (contextDir : String) :
    Outcome (setupFiles env hist s md contextDir).err
      (setupFiles env hist s md contextDir).events := by
  unfold setupFiles
  simp only
  split
  · refine outcome_of_option [] quiet_nil _ _ rfl
  · split
    · refine outcome_of_option [_] ?_ _ _ rfl
      simp [quiet_cons, quiet_nil, Event.abort]
    · split
      · refine outcome_of_option [_, _] ?_ _ _ rfl
        simp [quiet_cons, quiet_nil, Event.abort]
      · refine outcome_of_option [_, _] ?_ _ _ rfl
        simp [quiet_cons, quiet_nil, Event.abort]

theorem setup_outcome (env : Env) (hist : List Event) (s : State)
    (h : s.bob.nextSubSequence ≠ none) :
    Outcome (setup env hist s).err (setup env hist s).events := by
  unfold setup
  split
  · rename_i h0
    exact absurd h0 h
  · simp only
    split
    · exact outcome_of_option [] quiet_nil _ _ rfl
    · split
      · rename_i hst
        refine outcome_of_option [_] ?_ _ _ ?_
        · simp [quiet_cons, quiet_nil, Event.abort]
        · simp only [Event.abort]
          rw [if_pos hst]
      · rename_i hst
        simp only []
        refine outcome_append ?_ (setupFiles_outcome env _ s _ _)
        simp only [ne_eq, Decidable.not_not] at hst
        simp [quiet_cons, quiet_nil, Event.abort, hst]

theorem runSubCommands_outcome (env : Env) (bob : Builder) (seq : SubSequence)
    (cmds : List DockerCmd) :
    ∀ (hist : List Event) (imageID : String),
      Outcome (runSubCommands env bob seq hist cmds imageID).1
        (runSubCommands env bob seq hist cmds imageID).2 := by
  induction cmds with
  | nil => intro hist imageID; exact quiet_nil
  | cons cmd rest ih =>
    intro hist imageID
    unfold runSubCommands
    simp only
    split
    · rename_i h0
      refine outcome_append (a := [_]) ?_ (ih _ _)
      simp [quiet_cons, quiet_nil, Event.abort, h0]
    · rename_i err h0
      split
      · rename_i h1
        refine outcome_append (a := [_]) ?_ (ih _ _)
        simp [quiet_cons, quiet_nil, Event.abort, h0, h1]
      · rename_i h1
        refine outcome_of_option [] quiet_nil _ _ ?_
        simp [Event.abort, h0, h1]

theorem deleteFirstMatch_quiet (env : Env) (hist : List Event) (regex : String)
    (tags : List String) : Quiet (deleteFirstMatch env hist regex tags) := by
  induction tags with
  | nil => exact quiet_nil
  | cons tag rest ih =>
    unfold deleteFirstMatch
    split
    · exact quiet_nil
    · simp [quiet_cons, quiet_nil, Event.abort]
    · exact ih

theorem attemptToDelete_quiet (env : Env) (hist : List Event) (bob : Builder) (uuid : String) :
    Quiet (attemptToDeleteTemporaryUUIDTag env hist bob uuid) := by
  unfold attemptToDeleteTemporaryUUIDTag
  split
  · exact quiet_nil
  · simp only [quiet_cons]
    exact ⟨rfl, deleteFirstMatch_quiet _ _ _ _⟩

theorem buildSubSequences_outcome (env : Env) (cs : List SubSequence) :
    ∀ (hist : List Event) (s : State),
      Outcome (buildSubSequences env hist cs s).err (buildSubSequences env hist cs s).events := by
  induction cs with
  | nil => intro hist s; exact quiet_nil
  | cons seq rest ih =>
    intro hist s
    unfold buildSubSequences
    simp only
    have hc := cleanWorkdir_outcome env hist s
    generalize cleanWorkdir env hist s = c at *
    split
    · rename_i err h0
      rw [h0] at hc
      exact hc
    · rename_i h0
      rw [h0] at hc
      have ht := setup_outcome env (hist ++ c.events) (SetNextSubSequence c.state seq)
        (by simp [SetNextSubSequence])
      generalize setup env (hist ++ c.events) (SetNextSubSequence c.state seq) = t at *
      split
      · rename_i err h1
        rw [h1] at ht
        exact outcome_append hc ht
      · rename_i h1
        rw [h1] at ht
        have hr := runSubCommands_outcome env t.state.bob seq seq.SubCommand
          (hist ++ c.events ++ t.events) ""
        generalize runSubCommands env t.state.bob seq (hist ++ c.events ++ t.events)
          seq.SubCommand "" = r at *
        split
        · rename_i err h2
          rw [h2] at hr
          exact outcome_append (quiet_append hc ht) hr
        · rename_i h2
          rw [h2] at hr
          simp only
          have hd := attemptToDelete_quiet env (hist ++ c.events ++ t.events ++ r.2)
            t.state.bob seq.Metadata.UUID
          exact outcome_append (quiet_append (quiet_append (quiet_append hc ht) hr) hd) (ih _ _)

theorem ranCommands_append (a b : List Event) :
    ranCommands (a ++ b) = ranCommands a ++ ranCommands b := by
  induction a with
  | nil => rfl
  | cons ev rest ih => cases ev <;> simp [ranCommands, ih]

theorem lookedUp_append (a b : List Event) :
    lookedUp (a ++ b) = lookedUp a ++ lookedUp b := by
  induction a with
  | nil => rfl
  | cons ev rest ih => cases ev <;> simp [lookedUp, ih]

theorem ranCommands_of_not_isRun (evs : List Event) (h : ∀ ev ∈ evs, ev.isRun = false) :
    ranCommands evs = [] := by
  induction evs with
  | nil => rfl
  | cons ev rest ih =>
    have h1 := h ev (by simp)
    have h2 := ih (fun x hx => h x (by simp [hx]))
    cases ev <;> simp_all [ranCommands, Event.isRun]

theorem lookedUp_of_not_isCleanup (evs : List Event) (h : ∀ ev ∈ evs, ev.isCleanup = false) :
    lookedUp evs = [] := by
  induction evs with
  | nil => rfl
  | cons ev rest ih =>
    have h1 := h ev (by simp)
    have h2 := ih (fun x hx => h x (by simp [hx]))
    cases ev <;> simp_all [lookedUp, Event.isCleanup]

theorem cleanWorkdir_prep (env : Env) (hist : List Event) (s : State) :
    ∀ ev ∈ (cleanWorkdir env hist s).events, ev.isPrep = true := by
  unfold cleanWorkdir generateWorkDir
  simp only
  split <;> split <;> simp [Event.isPrep, Event.isRun, Event.isCleanup]

theorem cleanWorkdir_events_ne_nil (env : Env) (hist : List Event) (s : State) :
    (cleanWorkdir env hist s).events ≠ [] := by
  unfold cleanWorkdir generateWorkDir
  simp only
  split <;> split <;> simp

theorem setupFiles_prep (env : Env) (hist : List Event) (s : State)
    (md : SubSequenceMetadata) (contextDir : String) :
    ∀ ev ∈ (setupFiles env hist s md contextDir).events, ev.isPrep = true := by
  unfold setupFiles
  simp only
  split
  · simp [Event.isPrep, Event.isRun, Event.isCleanup]
  · split
    · simp [Event.isPrep, Event.isRun, Event.isCleanup]
    · split <;> simp [Event.isPrep, Event.isRun, Event.isCleanup]

theorem setup_prep (env : Env) (hist : List Event) (s : State) :
    ∀ ev ∈ (setup env hist s).events, ev.isPrep = true := by
  unfold setup
  split
  · simp
  · simp only
    split
    · simp [Event.isPrep, Event.isRun, Event.isCleanup]
    · split
      · simp [Event.isPrep, Event.isRun, Event.isCleanup]
      · intro ev hev
        simp only [List.mem_append] at hev
        rcases hev with h | h
        · revert h ev
          simp [Event.isPrep, Event.isRun, Event.isCleanup]
        · exact setupFiles_prep _ _ _ _ _ ev h

theorem setupFiles_bob (env : Env) (hist : List Event) (s : State)
    (md : SubSequenceMetadata) (contextDir : String) :
    (setupFiles env hist s md contextDir).state.bob = s.bob := by
  unfold setupFiles
  simp only
  split
  · rfl
  · split
    · rfl
    · split <;> rfl

theorem setup_bob (env : Env) (hist : List Event) (s : State) :
    (setup env hist s).state.bob = s.bob := by
  unfold setup
  split
  · rfl
  · simp only
    split
    · rfl
    · split
      · rfl
      · exact setupFiles_bob _ _ _ _ _

theorem cleanWorkdir_dockerClient (env : Env) (hist : List Event) (s : State) :
    (cleanWorkdir env hist s).state.bob.dockerClient = s.bob.dockerClient := by
  unfold cleanWorkdir
  simp only
  split <;> rfl

theorem runSubCommands_ran (env : Env) (bob : Builder) (seq : SubSequence)
    (cmds : List DockerCmd) :
    ∀ (hist : List Event) (imageID : String),
      (∀ ev ∈ (runSubCommands env bob seq hist cmds imageID).2, ev.isRun = true) ∧
      ((runSubCommands env bob seq hist cmds imageID).1 = none →
        ranCommands (runSubCommands env bob seq hist cmds imageID).2 =
          cmds.map (fun cmd => (seq.Metadata.UUID, cmd))) := by
  induction cmds with
  | nil => intro hist imageID; simp [runSubCommands, ranCommands]
  | cons cmd rest ih =>
    intro hist imageID
    unfold runSubCommands
    simp only
    split
    · constructor
      · simp only [List.mem_cons]
        rintro ev (h | h)
        · subst h; rfl
        · exact (ih _ _).1 ev h
      · intro h
        simp only [ranCommands, List.map_cons]
        rw [(ih _ _).2 h]
    · split
      · constructor
        · simp only [List.mem_cons]
          rintro ev (h | h)
          · subst h; rfl
          · exact (ih _ _).1 ev h
        · intro h
          simp only [ranCommands, List.map_cons]
          rw [(ih _ _).2 h]
      · simp [Event.isRun]

theorem ranCommands_of_prep (evs : List Event) (h : ∀ ev ∈ evs, ev.isPrep = true) :
    ranCommands evs = [] := by
  apply ranCommands_of_not_isRun
  intro ev hev
  have := h ev hev
  simp [Event.isPrep] at this
  exact this.1

theorem lookedUp_of_prep (evs : List Event) (h : ∀ ev ∈ evs, ev.isPrep = true) :
    lookedUp evs = [] := by
  apply lookedUp_of_not_isCleanup
  intro ev hev
  have := h ev hev
  simp [Event.isPrep] at this
  exact this.2

theorem lookedUp_of_isRun (evs : List Event) (h : ∀ ev ∈ evs, ev.isRun = true) :
    lookedUp evs = [] := by
  apply lookedUp_of_not_isCleanup
  intro ev hev
  have := h ev hev
  cases ev <;> simp_all [Event.isRun, Event.isCleanup]

theorem deleteFirstMatch_cleanup (env : Env) (hist : List Event) (regex : String)
    (tags : List String) :
    (∀ ev ∈ deleteFirstMatch env hist regex tags, ev.isRun = false) ∧
      lookedUp (deleteFirstMatch env hist regex tags) = [] := by
  induction tags with
  | nil => simp [deleteFirstMatch, lookedUp]
  | cons tag rest ih =>
    unfold deleteFirstMatch
    split
    · simp [lookedUp]
    · simp [lookedUp, Event.isRun]
    · exact ih

theorem attemptToDelete_cleanup (env : Env) (hist : List Event) (bob : Builder)
    (uuid : String) :
    (∀ ev ∈ attemptToDeleteTemporaryUUIDTag env hist bob uuid, ev.isRun = false) ∧
      lookedUp (attemptToDeleteTemporaryUUIDTag env hist bob uuid) =
        (match bob.dockerClient with
          | none => []
          | some _ => [":" ++ uuid ++ "$"]) := by
  unfold attemptToDeleteTemporaryUUIDTag
  split
  · rename_i h0
    simp [lookedUp, h0]
  · rename_i h0
    have := deleteFirstMatch_cleanup env
      (hist ++ [Event.LatestImageByRegex (":" ++ uuid ++ "$")
        (env.LatestImageByRegex hist (":" ++ uuid ++ "$")).1
        (env.LatestImageByRegex hist (":" ++ uuid ++ "$")).2]) (":" ++ uuid ++ "$")
      (env.LatestImageByRegex hist (":" ++ uuid ++ "$")).1.RepoTags
    constructor
    · simp only [List.mem_cons]
      rintro ev (h | h)
      · subst h; rfl
      · exact this.1 ev h
    · simp only [lookedUp, this.2, h0]

theorem buildSubSequences_ran (env : Env) (cs : List SubSequence) :
    ∀ (hist : List Event) (s : State),
      (buildSubSequences env hist cs s).err = none →
        ranCommands (buildSubSequences env hist cs s).events = declaredCommands cs ∧
        lookedUp (buildSubSequences env hist cs s).events =
          (match s.bob.dockerClient with
            | none => []
            | some _ => declaredPatterns cs) := by
  induction cs with
  | nil =>
    intro hist s _
    cases h : s.bob.dockerClient <;>
      simp [buildSubSequences, ranCommands, lookedUp, declaredCommands, declaredPatterns]
  | cons seq rest ih =>
    intro hist s
    unfold buildSubSequences
    simp only
    have hc := cleanWorkdir_prep env hist s
    have hcd := cleanWorkdir_dockerClient env hist s
    generalize cleanWorkdir env hist s = c at *
    split
    · intro h; simp at h
    · have ht := setup_prep env (hist ++ c.events) (SetNextSubSequence c.state seq)
      have htb := setup_bob env (hist ++ c.events) (SetNextSubSequence c.state seq)
      generalize setup env (hist ++ c.events) (SetNextSubSequence c.state seq) = t at *
      split
      · intro h; simp at h
      · have hr := runSubCommands_ran env t.state.bob seq seq.SubCommand
          (hist ++ c.events ++ t.events) ""
        generalize runSubCommands env t.state.bob seq (hist ++ c.events ++ t.events)
          seq.SubCommand "" = r at *
        split
        · intro h; simp at h
        · rename_i h2
          simp only
          intro hout
          have hd := attemptToDelete_cleanup env (hist ++ c.events ++ t.events ++ r.2)
            t.state.bob seq.Metadata.UUID
          have hi := ih _ _ hout
          have hcl : t.state.bob.dockerClient = s.bob.dockerClient := by
            rw [htb]; simp [SetNextSubSequence, hcd]
          constructor
          · simp only [ranCommands_append, ranCommands_of_prep _ hc, ranCommands_of_prep _ ht,
              hr.2 h2, ranCommands_of_not_isRun _ hd.1, hi.1, declaredCommands]
            simp
          · simp only [lookedUp_append, lookedUp_of_prep _ hc, lookedUp_of_prep _ ht,
              lookedUp_of_isRun _ hr.1, hd.2, hi.2, hcl]
            cases s.bob.dockerClient <;> simp [declaredPatterns]

theorem chained_append (cs : List SubSequence) (a b : List Event) :
    ∀ prev, Chained cs prev (a ++ b) ↔ Chained cs prev a ∧ Chained cs (lastOf prev a) b := by
  induction a with
  | nil => intro prev; simp [Chained, lastOf]
  | cons ev rest ih =>
    intro prev
    rw [List.cons_append]
    simp only [Chained, lastOf]
    rw [ih, and_assoc]

theorem lastOf_append (a b : List Event) :
    ∀ prev, lastOf prev (a ++ b) = lastOf (lastOf prev a) b := by
  induction a with
  | nil => intro prev; rfl
  | cons ev rest ih =>
    intro prev
    rw [List.cons_append]
    simp only [lastOf]
    rw [ih]

theorem link_of_not_isRun (cs : List SubSequence) (prev : Option Event) (ev : Event)
    (h : ev.isRun = false) : Link cs prev ev := by
  intro cmd opts id err hev
  subst hev
  simp [Event.isRun] at h

theorem chained_of_not_isRun (cs : List SubSequence) (evs : List Event) :
    ∀ prev, (∀ ev ∈ evs, ev.isRun = false) → Chained cs prev evs := by
  induction evs with
  | nil => intro prev _; trivial
  | cons ev rest ih =>
    intro prev h
    exact ⟨link_of_not_isRun cs prev ev (h ev (by simp)), ih _ (fun x hx => h x (by simp [hx]))⟩

theorem lastOf_nonRun (evs : List Event) :
    ∀ prev, (∀ ev ∈ evs, ev.isRun = false) → (NonRun prev ∨ evs ≠ []) →
      NonRun (lastOf prev evs) := by
  induction evs with
  | nil =>
    intro prev _ h
    rcases h with h | h
    · exact h
    · exact absurd rfl h
  | cons ev rest ih =>
    intro prev h _
    exact ih (some ev) (fun x hx => h x (by simp [hx])) (Or.inl ⟨ev, rfl, h ev (by simp)⟩)

theorem link_mono (seq : SubSequence) (cs : List SubSequence) (prev : Option Event)
    (ev : Event) (h : Link cs prev ev) : Link (seq :: cs) prev ev := by
  intro cmd opts id err hev
  obtain ⟨h1, h2, h3⟩ := h cmd opts id err hev
  refine ⟨h1, ?_, ?_⟩
  · intro cmd0 opts0 id0 err0 hp
    obtain ⟨hi, s0, hs0, hrest⟩ := h2 cmd0 opts0 id0 err0 hp
    exact ⟨hi, s0, List.mem_cons_of_mem _ hs0, hrest⟩
  · intro hp
    obtain ⟨hi, s0, hs0, hrest⟩ := h3 hp
    exact ⟨hi, s0, List.mem_cons_of_mem _ hs0, hrest⟩

theorem chained_mono (seq : SubSequence) (cs : List SubSequence) (evs : List Event) :
    ∀ prev, Chained cs prev evs → Chained (seq :: cs) prev evs := by
  induction evs with
  | nil => intro prev _; trivial
  | cons ev rest ih =>
    intro prev h
    exact ⟨link_mono seq cs prev ev h.1, ih _ h.2⟩

theorem link_of_ready (cs : List SubSequence) (seq : SubSequence) (hseq : seq ∈ cs)
    (prev : Option Event) (done : List DockerCmd) (imageID : String) (cmd : DockerCmd)
    (rest : List DockerCmd) (hsub : seq.SubCommand = done ++ cmd :: rest)
    (hready : Ready seq prev done imageID) (opts : DockerCmdOpts) (id : String)
    (err : Option Err) (himg : opts.Image = imageID)
    (huuid : opts.ImageUUID = seq.Metadata.UUID) :
    Link cs prev (Event.Run cmd opts id err) := by
  intro cmd1 opts1 id1 err1 hev
  injection hev with hc ho hi he
  subst hc ho hi he
  rcases hready with ⟨⟨p, hp, hrun⟩, hdone, himage⟩ | ⟨d0, cmd0, opts0, id0, err0, hp, hdone, himage, hu⟩
  · subst hp hdone
    refine ⟨⟨p, rfl⟩, ?_, ?_⟩
    · intro cmd0 opts0 id0 err0 h0
      injection h0 with h0
      subst h0
      simp [Event.isRun] at hrun
    · intro _
      exact ⟨by rw [himg, himage], seq, hseq, huuid, rest, by simpa using hsub⟩
  · subst hp hdone
    refine ⟨⟨_, rfl⟩, ?_, ?_⟩
    · intro c1 o1 i1 e1 h0
      injection h0 with h0
      injection h0 with hc ho hi he
      subst hc ho hi he
      exact ⟨by rw [himg, himage], seq, hseq, hu, huuid, d0, rest, by simpa using hsub⟩
    · intro h0
      have := h0 _ rfl
      simp [Event.isRun] at this

theorem runSubCommands_chained (env : Env) (bob : Builder) (cs : List SubSequence)
    (seq : SubSequence) (hseq : seq ∈ cs) (cmds : List DockerCmd) :
    ∀ (done : List DockerCmd) (hist : List Event) (imageID : String) (prev : Option Event),
      seq.SubCommand = done ++ cmds → Ready seq prev done imageID →
        Chained cs prev (runSubCommands env bob seq hist cmds imageID).2 := by
  induction cmds with
  | nil => intro done hist imageID prev _ _; trivial
  | cons cmd rest ih =>
    intro done hist imageID prev hsub hready
    let opts : DockerCmdOpts :=
      { DockerClient := bob.dockerClient, Image := imageID, ImageUUID := seq.Metadata.UUID,
        SkipPush := env.SkipPush, Workdir := bob.workdir }
    have hlink := fun id err => link_of_ready cs seq hseq prev done imageID cmd rest hsub hready
      opts id err rfl rfl
    have hnext := fun id err => ih (done ++ [cmd]) (hist ++ [Event.Run cmd opts id err]) id
      (some (Event.Run cmd opts id err)) (by simpa using hsub)
      (Or.inr ⟨done, cmd, _, id, err, rfl, rfl, rfl, rfl⟩)
    unfold runSubCommands
    simp only
    split
    · exact ⟨hlink _ _, hnext _ _⟩
    · split
      · exact ⟨hlink _ _, hnext _ _⟩
      · exact ⟨hlink _ _, trivial⟩

theorem not_isRun_of_prep {evs : List Event} (h : ∀ ev ∈ evs, ev.isPrep = true) :
    ∀ ev ∈ evs, ev.isRun = false := by
  intro ev hev
  have := h ev hev
  simp [Event.isPrep] at this
  exact this.1

theorem buildSubSequences_chained (env : Env) (cs : List SubSequence) :
    ∀ (hist : List Event) (s : State) (prev : Option Event),
      Chained cs prev (buildSubSequences env hist cs s).events := by
  induction cs with
  | nil => intro hist s prev; trivial
  | cons seq rest ih =>
    intro hist s prev
    unfold buildSubSequences
    simp only
    have hc := not_isRun_of_prep (cleanWorkdir_prep env hist s)
    have hcne := cleanWorkdir_events_ne_nil env hist s
    generalize cleanWorkdir env hist s = c at *
    have hc1 : Chained (seq :: rest) prev c.events := chained_of_not_isRun _ _ _ hc
    have hc2 : NonRun (lastOf prev c.events) := lastOf_nonRun _ _ hc (Or.inr hcne)
    split
    · exact hc1
    · have ht := not_isRun_of_prep
        (setup_prep env (hist ++ c.events) (SetNextSubSequence c.state seq))
      generalize setup env (hist ++ c.events) (SetNextSubSequence c.state seq) = t at *
      have ht1 : Chained (seq :: rest) prev (c.events ++ t.events) :=
        (chained_append _ _ _ _).2 ⟨hc1, chained_of_not_isRun _ _ _ ht⟩
      have ht2 : NonRun (lastOf prev (c.events ++ t.events)) := by
        rw [lastOf_append]
        exact lastOf_nonRun _ _ ht (Or.inl hc2)
      split
      · exact ht1
      · have hr := runSubCommands_chained env t.state.bob (seq :: rest) seq (by simp)
          seq.SubCommand [] (hist ++ c.events ++ t.events) ""
          (lastOf prev (c.events ++ t.events)) rfl (Or.inl ⟨ht2, rfl, rfl⟩)
        generalize runSubCommands env t.state.bob seq (hist ++ c.events ++ t.events)
          seq.SubCommand "" = r at *
        have hr1 : Chained (seq :: rest) prev (c.events ++ t.events ++ r.2) :=
          (chained_append _ _ _ _).2 ⟨ht1, hr⟩
        split
        · exact hr1
        · simp only
          have hd := (attemptToDelete_cleanup env (hist ++ c.events ++ t.events ++ r.2)
            t.state.bob seq.Metadata.UUID).1
          refine (chained_append _ _ _ _).2 ⟨(chained_append _ _ _ _).2 ⟨hr1, ?_⟩, ?_⟩
          · exact chained_of_not_isRun _ _ _ hd
          · exact chained_mono _ _ _ _ (ih _ _ _)

theorem chained_adjacent (cs : List SubSequence) (pre : List Event) :
    ∀ (prev : Option Event) (evs post : List Event) (p cur : Event),
      Chained cs prev evs → evs = pre ++ p :: cur :: post → Link cs (some p) cur := by
  induction pre with
  | nil =>
    intro prev evs post p cur h hsplit
    subst hsplit
    exact h.2.1
  | cons x rest ih =>
    intro prev evs post p cur h hsplit
    subst hsplit
    exact ih (some x) _ post p cur h.2 rfl

theorem quiet_of_no_error (evs : List Event) (hsetup : ∀ ev ∈ evs, ev.setupError = none)
    (hcmd : ∀ ev ∈ evs, ev.commandError.all Err.isNilClientError = true) :
    Quiet evs := by
  intro ev hev
  have h1 := hsetup ev hev
  have h2 := hcmd ev hev
  cases ev with
  | Run cmd opts id err =>
    cases err with
    | none => rfl
    | some e =>
      simp only [Event.commandError, Option.all_some] at h2
      simp [Event.abort, h2]
  | Sanitize file top p => simpa [Event.abort, Event.setupError] using h1
  | _ => exact h1

theorem isLiteral_of_isUUID (u : String) (h : isUUID u = true) :
    isLiteral (":" ++ u) = true := by
  unfold isUUID at h
  unfold isLiteral
  have hd : (":" ++ u).data = ':' :: u.data := rfl
  rw [hd]
  simp only [List.all_cons, Bool.and_eq_true, List.all_eq_true] at h ⊢
  constructor
  · decide
  · intro c hc
    have := h c hc
    simp only [isUUIDChar, Bool.or_eq_true, Bool.and_eq_true, decide_eq_true_eq] at this
    simp only [regexMetaChars, decide_eq_true_eq, List.mem_cons, List.mem_singleton,
      List.not_mem_nil, or_false]
    omega

theorem deleteFirstMatch_spec (env : Env) (hist : List Event) (regex : String)
    (tags : List String) :
    removedTags (deleteFirstMatch env hist regex tags) = [] ∨
    ∃ pre tag post, tags = pre ++ tag :: post ∧
      removedTags (deleteFirstMatch env hist regex tags) = [tag] ∧
      env.MatchString regex tag = Except.ok true ∧
      ∀ t ∈ pre, env.MatchString regex t = Except.ok false := by
  induction tags with
  | nil => left; rfl
  | cons tag rest ih =>
    unfold deleteFirstMatch
    split
    · left; rfl
    · rename_i h
      right
      exact ⟨[], tag, rest, rfl, rfl, h, by simp⟩
    · rename_i h
      rcases ih with h0 | ⟨pre, t, post, h1, h2, h3, h4⟩
      · left; exact h0
      · right
        refine ⟨tag :: pre, t, post, by simp [h1], h2, h3, ?_⟩
        intro x hx
        simp only [List.mem_cons] at hx
        rcases hx with hx | hx
        · rw [hx]; exact h
        · exact h4 x hx

theorem less_eq (s : APIImagesSlice) (i j : Nat) (hi : i < s.length) (hj : j < s.length) :
    APIImagesSlice.Less s i j = some (decide ((s.get ⟨i, hi⟩).Created > (s.get ⟨j, hj⟩).Created)) := by
  unfold APIImagesSlice.Less
  simp [List.getElem?_eq_getElem hi, List.getElem?_eq_getElem hj]

theorem less_true_iff (s : APIImagesSlice) (i j : Nat) :
    APIImagesSlice.Less s i j = some true ↔
      ∃ (hi : i < s.length) (hj : j < s.length),
        (s.get ⟨j, hj⟩).Created < (s.get ⟨i, hi⟩).Created := by
  constructor
  · intro h
    by_cases hi : i < s.length
    · by_cases hj : j < s.length
      · rw [less_eq s i j hi hj] at h
        exact ⟨hi, hj, by simpa using h⟩
      · simp [APIImagesSlice.Less, List.getElem?_eq_none (not_lt.1 hj)] at h
    · simp [APIImagesSlice.Less, List.getElem?_eq_none (not_lt.1 hi)] at h
  · rintro ⟨hi, hj, h⟩
    rw [less_eq s i j hi hj]
    simpa using h

theorem less_false_iff (s : APIImagesSlice) (i j : Nat) :
    APIImagesSlice.Less s i j = some false ↔
      ∃ (hi : i < s.length) (hj : j < s.length),
        (s.get ⟨i, hi⟩).Created ≤ (s.get ⟨j, hj⟩).Created := by
  constructor
  · intro h
    by_cases hi : i < s.length
    · by_cases hj : j < s.length
      · rw [less_eq s i j hi hj] at h
        exact ⟨hi, hj, by simpa using h⟩
      · simp [APIImagesSlice.Less, List.getElem?_eq_none (not_lt.1 hj)] at h
    · simp [APIImagesSlice.Less, List.getElem?_eq_none (not_lt.1 hi)] at h
  · rintro ⟨hi, hj, h⟩
    rw [less_eq s i j hi hj]
    simpa using h

theorem demoEnv_matchString : MatchesLiteralAtEnd demoEnv.MatchString := by
  intro lit text _
  have h : (lit ++ "$").data.dropLast = lit.data := by
    have h1 : (lit ++ "$").data = lit.data ++ [Char.ofNat 36] := rfl
    rw [h1, List.dropLast_concat]
  simp only [demoEnv, h]

theorem pathComponents_append (a b : List Char) :
    ∀ cur, pathComponents (a ++ '/' :: b) cur = pathComponents a cur ++ pathComponents b [] := by
  induction a with
  | nil => intro cur; simp [pathComponents]
  | cons c rest ih =>
    intro cur
    rw [List.cons_append]
    simp only [pathComponents]
    split
    · rw [ih]; rfl
    · rw [ih]

theorem resolveComponents_append (xs ys : List String) :
    ∀ stack, resolveComponents (xs ++ ys) stack =
      resolveComponents ys (resolveComponents xs stack) := by
  induction xs with
  | nil => intro stack; rfl
  | cons x rest ih =>
    intro stack
    rw [List.cons_append]
    simp only [resolveComponents]
    split
    · exact ih _
    · split
      · exact ih _
      · exact ih _

theorem cleanPath_dockerfile (dir : String) :
    cleanPath (dir ++ "/Dockerfile") = cleanPath dir ++ ["Dockerfile"] := by
  unfold cleanPath
  have h : (dir ++ "/Dockerfile").data = dir.data ++ '/' :: "Dockerfile".data := rfl
  rw [h, pathComponents_append, resolveComponents_append]
  have h2 : pathComponents "Dockerfile".data [] = ["Dockerfile"] := by decide
  rw [h2]
  simp [resolveComponents]

theorem relativeTo_append (dir rel : Path) : relativeTo dir (dir ++ rel) = some rel := by
  induction dir with
  | nil => rfl
  | cons d rest ih => simp [relativeTo, ih]

theorem relativeTo_some (dir : Path) : ∀ (p rel : Path), relativeTo dir p = some rel →
    p = dir ++ rel := by
  induction dir with
  | nil => intro p rel h; simp [relativeTo] at h; simp [h]
  | cons d rest ih =>
    intro p rel h
    cases p with
    | nil => simp [relativeTo] at h
    | cons c p =>
      simp only [relativeTo] at h
      split at h
      · rename_i hdc
        rw [hdc, ih p rel h]
        rfl
      · simp at h

/-! ## The claims -/

/-- C1: when a run of `BuildCommandSequence` makes a command call that returns
an error `e` that is not a `NilClientError`, the run returns exactly `e` and
that call is the last call of the run: no later command, no temporary-tag
cleanup, no `cleanWorkdir`, `setup` or command of a later SubSequence. -/
theorem BuildCommandSequence_fatal_error_aborts (env : Env) (hist : List Event)
    (commandSequence : CommandSequence) (s : State) (pre post : List Event)
    (cmd : DockerCmd) (opts : DockerCmdOpts) (imageID : String) (e : Err)
    (hrun : (BuildCommandSequence env hist commandSequence s).events =
      pre ++ Event.Run cmd opts imageID (some e) :: post)
    (hfatal : e.isNilClientError = false) :
    (BuildCommandSequence env hist commandSequence s).err = some e ∧ post = [] := by
  refine outcome_last (buildSubSequences_outcome env commandSequence.Commands hist s) hrun ?_
  simp [Event.abort, hfatal]

/-- The push of `base` fails: the run returns that error after eleven calls, and
`app` is never started. -/
theorem BuildCommandSequence_fatal_error_aborts_witness :
    ((BuildCommandSequence pushFailsEnv [] demoSequence demoState).events =
      (BuildCommandSequence pushFailsEnv [] demoSequence demoState).events.take 10 ++
        Event.Run (DockerCmd.PushCmd "quay.io/base" "v1")
          (demoOpts "img-0b5e")
          "" (some (Err.other "push failed")) :: []) ∧
    (Err.other "push failed").isNilClientError = false ∧
    (BuildCommandSequence pushFailsEnv [] demoSequence demoState).err =
      some (Err.other "push failed") ∧
    (BuildCommandSequence pushFailsEnv [] demoSequence demoState).events.length = 11 :=
  ⟨by decide, by decide,
    (BuildCommandSequence_fatal_error_aborts pushFailsEnv [] demoSequence demoState
      ((BuildCommandSequence pushFailsEnv [] demoSequence demoState).events.take 10) []
      (DockerCmd.PushCmd "quay.io/base" "v1")
      (demoOpts "img-0b5e")
      "" (Err.other "push failed") (by decide) (by decide)).1,
    by decide⟩

/-- C2: when no call of `cleanWorkdir` or `setup` of a run returns an error and
every error a command returns is a `NilClientError`, `BuildCommandSequence`
returns no error and the commands it ran are exactly the commands of the
command sequence, each once, SubSequence after SubSequence and command after
command in declaration order. -/
theorem BuildCommandSequence_nil_client_runs_all (env : Env) (hist : List Event)
    (commandSequence : CommandSequence) (s : State)
    (hsetup : ∀ ev ∈ (BuildCommandSequence env hist commandSequence s).events,
      ev.setupError = none)
    (hcmd : ∀ ev ∈ (BuildCommandSequence env hist commandSequence s).events,
      ev.commandError.all Err.isNilClientError = true) :
    (BuildCommandSequence env hist commandSequence s).err = none ∧
      ranCommands (BuildCommandSequence env hist commandSequence s).events =
        declaredCommands commandSequence.Commands := by
  have hq := quiet_of_no_error _ hsetup hcmd
  have herr := outcome_quiet (buildSubSequences_outcome env commandSequence.Commands hist s) hq
  exact ⟨herr, (buildSubSequences_ran env commandSequence.Commands hist s herr).1⟩

/-- A builder without backend, every command answering `NilClientError`: the
six commands run and the run returns no error. -/
theorem BuildCommandSequence_nil_client_runs_all_witness :
    (∀ ev ∈ (BuildCommandSequence noBackendEnv [] demoSequence demoStateNoBackend).events,
      ev.setupError = none) ∧
    (∀ ev ∈ (BuildCommandSequence noBackendEnv [] demoSequence demoStateNoBackend).events,
      ev.commandError.all Err.isNilClientError = true) ∧
    (BuildCommandSequence noBackendEnv [] demoSequence demoStateNoBackend).err = none ∧
    ranCommands (BuildCommandSequence noBackendEnv [] demoSequence demoStateNoBackend).events =
      [("0b5e", DockerCmd.BuildCmd), ("0b5e", DockerCmd.TagCmd "quay.io/base" "v1"),
        ("0b5e", DockerCmd.PushCmd "quay.io/base" "v1"), ("7d6f", DockerCmd.BuildCmd),
        ("7d6f", DockerCmd.TagCmd "quay.io/app" "v1"),
        ("7d6f", DockerCmd.PushCmd "quay.io/app" "v1")] :=
  ⟨by decide, by decide,
    (BuildCommandSequence_nil_client_runs_all noBackendEnv [] demoSequence demoStateNoBackend
      (by decide) (by decide)).1,
    by decide⟩

/-- C3, as stated, fails: in this run the tag command of `base` is passed the
image `img-0b5e` and fails with a `NilClientError`, returning the empty
identifier next to it; the push command that follows is passed the empty
identifier, not `img-0b5e`. -/
theorem nil_client_overwrites_imageID :
    ∃ pre post,
      (BuildCommandSequence tagNilClientEnv [] demoSequence demoState).events =
        pre ++
          Event.Run (DockerCmd.TagCmd "quay.io/base" "v1")
            (demoOpts "img-0b5e")
            "" (some (Err.NilClientError "docker client is nil")) ::
          Event.Run (DockerCmd.PushCmd "quay.io/base" "v1")
            (demoOpts "")
            "" none :: post ∧
      ("" : String) ≠ "img-0b5e" :=
  ⟨(BuildCommandSequence tagNilClientEnv [] demoSequence demoState).events.take 9,
    (BuildCommandSequence tagNilClientEnv [] demoSequence demoState).events.drop 11,
    by decide, by decide⟩

/-- C3, amended: when command k fails with a `NilClientError`, the loop goes on
with command k+1, and the image identifier passed to command k+1 is the one
command k returned next to its error (not the one command k was passed). First
part: the inner loop, entered at a command whose call returns `id0` next to a
`NilClientError`, runs the next command with `Image = id0`. Second part: in a
run of `BuildCommandSequence`, a command call that directly follows a command
call that returned `id0` next to a `NilClientError` was passed `Image = id0`, and
the two are consecutive commands of one SubSequence. -/
theorem BuildCommandSequence_nil_client_image (env : Env) :
    (∀ (bob : Builder) (seq : SubSequence) (hist : List Event) (cmd next : DockerCmd)
      (rest : List DockerCmd) (imageID id0 msg : String),
      env.Run hist cmd
          { DockerClient := bob.dockerClient, Image := imageID,
            ImageUUID := seq.Metadata.UUID, SkipPush := env.SkipPush,
            Workdir := bob.workdir } = (id0, some (Err.NilClientError msg)) →
      ∃ id err tail,
        (runSubCommands env bob seq hist (cmd :: next :: rest) imageID).2 =
          Event.Run cmd
            { DockerClient := bob.dockerClient, Image := imageID,
              ImageUUID := seq.Metadata.UUID, SkipPush := env.SkipPush,
              Workdir := bob.workdir } id0 (some (Err.NilClientError msg)) ::
          Event.Run next
            { DockerClient := bob.dockerClient, Image := id0,
              ImageUUID := seq.Metadata.UUID, SkipPush := env.SkipPush,
              Workdir := bob.workdir } id err :: tail) ∧
    (∀ (hist : List Event) (commandSequence : CommandSequence) (s : State)
      (pre post : List Event) (cmd0 cmd : DockerCmd) (opts0 opts : DockerCmdOpts)
      (id0 id msg : String) (err : Option Err),
      (BuildCommandSequence env hist commandSequence s).events =
        pre ++ Event.Run cmd0 opts0 id0 (some (Err.NilClientError msg)) ::
          Event.Run cmd opts id err :: post →
      opts.Image = id0 ∧ Consecutive commandSequence.Commands cmd0 opts0 cmd opts) := by
  constructor
  · intro bob seq hist cmd next rest imageID id0 msg hrun
    rw [runSubCommands]
    simp only [hrun, Err.isNilClientError, if_true]
    rw [runSubCommands]
    simp only
    split
    · exact ⟨_, _, _, rfl⟩
    · split
      · exact ⟨_, _, _, rfl⟩
      · exact ⟨_, _, _, rfl⟩
  · intro hist commandSequence s pre post cmd0 cmd opts0 opts id0 id msg err h
    have hch := buildSubSequences_chained env commandSequence.Commands hist s none
    exact (chained_adjacent _ pre none _ post _ _ hch h cmd opts id err rfl).2.1 _ _ _ _ rfl

/-- The run of the counterexample: the push of `base` is passed the empty
identifier the failing tag command returned. -/
theorem BuildCommandSequence_nil_client_image_witness :
    ((BuildCommandSequence tagNilClientEnv [] demoSequence demoState).events =
      (BuildCommandSequence tagNilClientEnv [] demoSequence demoState).events.take 9 ++
        Event.Run (DockerCmd.TagCmd "quay.io/base" "v1")
          (demoOpts "img-0b5e")
          "" (some (Err.NilClientError "docker client is nil")) ::
        Event.Run (DockerCmd.PushCmd "quay.io/base" "v1")
          (demoOpts "")
          "" none ::
        (BuildCommandSequence tagNilClientEnv [] demoSequence demoState).events.drop 11) ∧
    (("" : String) = "" ∧
      Consecutive demoSequence.Commands (DockerCmd.TagCmd "quay.io/base" "v1")
        (demoOpts "img-0b5e")
        (DockerCmd.PushCmd "quay.io/base" "v1")
        (demoOpts "")) :=
  ⟨by decide,
    (BuildCommandSequence_nil_client_image tagNilClientEnv).2 [] demoSequence demoState
      ((BuildCommandSequence tagNilClientEnv [] demoSequence demoState).events.take 9)
      ((BuildCommandSequence tagNilClientEnv [] demoSequence demoState).events.drop 11)
      (DockerCmd.TagCmd "quay.io/base" "v1") (DockerCmd.PushCmd "quay.io/base" "v1")
      (demoOpts "img-0b5e") (demoOpts "") "" "" "docker client is nil" none (by decide)⟩

/-- C4: in a run of `BuildCommandSequence`, no command call is the first call
of the run; a command call that follows a call other than a command call is the
first command of a SubSequence and is passed the empty image identifier; a
command call that follows a command call that succeeded is passed exactly the
identifier that call returned, and the two are consecutive commands of one
SubSequence. So what a command is passed comes from the command right before
it in its own SubSequence and from nowhere else. -/
theorem BuildCommandSequence_threads_image (env : Env) (hist : List Event)
    (commandSequence : CommandSequence) (s : State) :
    (∀ cmd opts id err rest,
      (BuildCommandSequence env hist commandSequence s).events ≠
        Event.Run cmd opts id err :: rest) ∧
    (∀ pre prev cmd opts id err post,
      (BuildCommandSequence env hist commandSequence s).events =
        pre ++ prev :: Event.Run cmd opts id err :: post →
      (prev.isRun = false →
        opts.Image = "" ∧ FirstOf commandSequence.Commands cmd opts) ∧
      (∀ cmd0 opts0 id0, prev = Event.Run cmd0 opts0 id0 none →
        opts.Image = id0 ∧ Consecutive commandSequence.Commands cmd0 opts0 cmd opts)) := by
  have hch := buildSubSequences_chained env commandSequence.Commands hist s
  constructor
  · intro cmd opts id err rest h
    have := hch none
    unfold BuildCommandSequence at h
    rw [h] at this
    obtain ⟨⟨p, hp⟩, _⟩ := this.1 cmd opts id err rfl
    simp at hp
  · intro pre prev cmd opts id err post h
    have hl := chained_adjacent _ pre none _ post prev _ (hch none) h cmd opts id err rfl
    refine ⟨fun hp => hl.2.2 (fun p hp0 => ?_), fun cmd0 opts0 id0 hp => hl.2.1 cmd0 opts0 id0 none ?_⟩
    · injection hp0 with hp0
      rw [← hp0]; exact hp
    · rw [hp]

/-- In the run where everything succeeds, the build of `app` follows the copy
of its dockerfile and is passed the empty identifier, although the last
command of `base` returned `img-0b5e`; the tag command of `app` follows the
build and is passed the image the build returned. -/
theorem BuildCommandSequence_threads_image_witness :
    (BuildCommandSequence demoEnv [] demoSequence demoState).events =
      (BuildCommandSequence demoEnv [] demoSequence demoState).events.take 20 ++
        Event.CpWithArgs "/ctx/Dockerfile" "/tmp/bob13/Dockerfile" none ::
        Event.Run DockerCmd.BuildCmd
          { DockerClient := demoBuilder.dockerClient, Image := "", ImageUUID := "7d6f",
            SkipPush := false, Workdir := "/tmp/bob13" } "img-7d6f" none ::
        (BuildCommandSequence demoEnv [] demoSequence demoState).events.drop 22 ∧
    (BuildCommandSequence demoEnv [] demoSequence demoState).events =
      (BuildCommandSequence demoEnv [] demoSequence demoState).events.take 21 ++
        Event.Run DockerCmd.BuildCmd
          { DockerClient := demoBuilder.dockerClient, Image := "", ImageUUID := "7d6f",
            SkipPush := false, Workdir := "/tmp/bob13" } "img-7d6f" none ::
        Event.Run (DockerCmd.TagCmd "quay.io/app" "v1")
          { DockerClient := demoBuilder.dockerClient, Image := "img-7d6f", ImageUUID := "7d6f",
            SkipPush := false, Workdir := "/tmp/bob13" } "img-7d6f" none ::
        (BuildCommandSequence demoEnv [] demoSequence demoState).events.drop 23 ∧
    (("" : String) = "" ∧
      FirstOf demoSequence.Commands DockerCmd.BuildCmd
        { DockerClient := demoBuilder.dockerClient, Image := "", ImageUUID := "7d6f",
          SkipPush := false, Workdir := "/tmp/bob13" }) ∧
    (("img-7d6f" : String) = "img-7d6f" ∧
      Consecutive demoSequence.Commands DockerCmd.BuildCmd
        { DockerClient := demoBuilder.dockerClient, Image := "", ImageUUID := "7d6f",
          SkipPush := false, Workdir := "/tmp/bob13" }
        (DockerCmd.TagCmd "quay.io/app" "v1")
        { DockerClient := demoBuilder.dockerClient, Image := "img-7d6f", ImageUUID := "7d6f",
          SkipPush := false, Workdir := "/tmp/bob13" }) :=
  ⟨by decide, by decide,
    ((BuildCommandSequence_threads_image demoEnv [] demoSequence demoState).2
      ((BuildCommandSequence demoEnv [] demoSequence demoState).events.take 20)
      (Event.CpWithArgs "/ctx/Dockerfile" "/tmp/bob13/Dockerfile" none) DockerCmd.BuildCmd
      { DockerClient := demoBuilder.dockerClient, Image := "", ImageUUID := "7d6f",
        SkipPush := false, Workdir := "/tmp/bob13" } "img-7d6f" none
      ((BuildCommandSequence demoEnv [] demoSequence demoState).events.drop 22)
      (by decide)).1 (by decide),
    ((BuildCommandSequence_threads_image demoEnv [] demoSequence demoState).2
      ((BuildCommandSequence demoEnv [] demoSequence demoState).events.take 21)
      (Event.Run DockerCmd.BuildCmd
        { DockerClient := demoBuilder.dockerClient, Image := "", ImageUUID := "7d6f",
          SkipPush := false, Workdir := "/tmp/bob13" } "img-7d6f" none)
      (DockerCmd.TagCmd "quay.io/app" "v1")
      { DockerClient := demoBuilder.dockerClient, Image := "img-7d6f", ImageUUID := "7d6f",
        SkipPush := false, Workdir := "/tmp/bob13" } "img-7d6f" none
      ((BuildCommandSequence demoEnv [] demoSequence demoState).events.drop 23)
      (by decide)).2 DockerCmd.BuildCmd
      { DockerClient := demoBuilder.dockerClient, Image := "", ImageUUID := "7d6f",
        SkipPush := false, Workdir := "/tmp/bob13" } "img-7d6f" rfl⟩

/-- C5, as stated, fails: here the path sandbox leaves the dockerfile path in
the state `Error` with no error value. `setup` returns the `Error` field, that
is no error; the run goes on, all six commands run, on workdirs into which
nothing was extracted or copied, and the run returns no error. -/
theorem setup_nil_sandbox_error_runs_commands :
    (setup sandboxNilErrorEnv [] (demoSetupState demoBase)).err = none ∧
    Event.Sanitize "Dockerfile.base" "/ctx"
        { State := TrustedFilePathState.Error, Error := none, Top := "/ctx" } ∈
      (BuildCommandSequence sandboxNilErrorEnv [] demoSequence demoState).events ∧
    (BuildCommandSequence sandboxNilErrorEnv [] demoSequence demoState).err = none ∧
    ranCommands (BuildCommandSequence sandboxNilErrorEnv [] demoSequence demoState).events =
      [("0b5e", DockerCmd.BuildCmd), ("0b5e", DockerCmd.TagCmd "quay.io/base" "v1"),
        ("0b5e", DockerCmd.PushCmd "quay.io/base" "v1"), ("7d6f", DockerCmd.BuildCmd),
        ("7d6f", DockerCmd.TagCmd "quay.io/app" "v1"),
        ("7d6f", DockerCmd.PushCmd "quay.io/app" "v1")] := by
  decide

/-- C5, amended: when the path sandbox leaves the dockerfile path of the
SubSequence in a state other than `OK`, `setup` returns the `Error` field of
the sandbox as it is, having made no call after `Sanitize` (no archive, no
extraction, no copy) and left the files as they were; and in a run of
`BuildCommandSequence`, when that field holds an error `e`, the run returns `e`
and the `Sanitize` call is its last call: no extraction, no copy, no
command. -/
theorem setup_sandbox_error_aborts (env : Env) :
    (∀ (hist : List Event) (s : State) (seq : SubSequence) (p : TrustedFilePath),
      s.bob.nextSubSequence = some seq →
      env.NewTrustedFilePath hist seq.Metadata.Dockerfile s.bob.contextDir = none →
      env.Sanitize
        (hist ++ [Event.NewTrustedFilePath seq.Metadata.Dockerfile s.bob.contextDir none])
        seq.Metadata.Dockerfile s.bob.contextDir = p →
      p.State ≠ TrustedFilePathState.OK →
      (setup env hist s).err = p.Error ∧
      (setup env hist s).events =
        [Event.NewTrustedFilePath seq.Metadata.Dockerfile s.bob.contextDir none,
          Event.Sanitize seq.Metadata.Dockerfile s.bob.contextDir p] ∧
      (setup env hist s).state.fs = s.fs) ∧
    (∀ (hist : List Event) (commandSequence : CommandSequence) (s : State)
      (pre post : List Event) (file top : String) (p : TrustedFilePath) (e : Err),
      (BuildCommandSequence env hist commandSequence s).events =
        pre ++ Event.Sanitize file top p :: post →
      p.State ≠ TrustedFilePathState.OK → p.Error = some e →
      (BuildCommandSequence env hist commandSequence s).err = some e ∧ post = []) := by
  constructor
  · intro hist s seq p hseq hnew hp hst
    unfold setup
    rw [hseq]
    simp only [hnew, hp, hst, ne_eq, not_false_eq_true, if_true, and_self]
  · intro hist commandSequence s pre post file top p e hev hst herr
    refine outcome_last (buildSubSequences_outcome env commandSequence.Commands hist s) hev ?_
    simp [Event.abort, hst, herr]

/-- The sandbox rejects the dockerfile of `app`: `setup` returns its error after
two calls, and the run returns it at the `Sanitize` call of `app`. -/
theorem setup_sandbox_error_aborts_witness :
    (demoSetupState demoApp).bob.nextSubSequence = some demoApp ∧
    sandboxFailsEnv.NewTrustedFilePath [] demoApp.Metadata.Dockerfile
      (demoSetupState demoApp).bob.contextDir = none ∧
    TrustedFilePathState.Error ≠ TrustedFilePathState.OK ∧
    ((setup sandboxFailsEnv [] (demoSetupState demoApp)).err =
        some (Err.other "file not in context") ∧
      (setup sandboxFailsEnv [] (demoSetupState demoApp)).events =
        [Event.NewTrustedFilePath "Dockerfile" "/ctx" none,
          Event.Sanitize "Dockerfile" "/ctx"
            { State := TrustedFilePathState.Error,
              Error := some (Err.other "file not in context"), Top := "/ctx" }] ∧
      (setup sandboxFailsEnv [] (demoSetupState demoApp)).state.fs =
        (demoSetupState demoApp).fs) ∧
    ((BuildCommandSequence sandboxFailsEnv [] demoSequence demoState).err =
        some (Err.other "file not in context") ∧
      ([] : List Event) = []) :=
  ⟨rfl, rfl, by decide,
    (setup_sandbox_error_aborts sandboxFailsEnv).1 [] (demoSetupState demoApp) demoApp
      { State := TrustedFilePathState.Error, Error := some (Err.other "file not in context"),
        Top := "/ctx" } rfl rfl rfl (by decide),
    (setup_sandbox_error_aborts sandboxFailsEnv).2 [] demoSequence demoState
      ((BuildCommandSequence sandboxFailsEnv [] demoSequence demoState).events.take 17) []
      "Dockerfile" "/ctx"
      { State := TrustedFilePathState.Error, Error := some (Err.other "file not in context"),
        Top := "/ctx" } (Err.other "file not in context") (by decide) (by decide) rfl⟩

/-- C6, as stated, fails: the context directory holds `sub/Dockerfile`, a file
named `Dockerfile`. The setup of `base` succeeds from an empty workdir, and the
workdir then holds that file too, next to the `Dockerfile` copied from
`Dockerfile.base`: a context file named `Dockerfile` was not left out, and two
files named `Dockerfile` are present. -/
theorem setup_keeps_nested_dockerfile :
    (setup demoEnv [] (demoSetupState demoBase)).err = none ∧
    demoFS ["ctx", "sub", "Dockerfile"] = some "FROM nested" ∧
    (setup demoEnv [] (demoSetupState demoBase)).state.fs ["tmp", "bob0", "sub", "Dockerfile"] =
      some "FROM nested" ∧
    (setup demoEnv [] (demoSetupState demoBase)).state.fs ["tmp", "bob0", "Dockerfile"] =
      some "FROM scratch" := by
  decide

/-- C6, amended: when the dockerfile path of the SubSequence validates to `OK`,
the dockerfile exists (at the path the code copies from, the context directory
joined with the dockerfile of the SubSequence), no file is below the workdir
and `setup` succeeds, the files below the workdir after `setup` are exactly:
at `Dockerfile`, a file with the content of the dockerfile of the SubSequence;
nothing below a directory `Dockerfile`; at every other relative path, what the
sandboxed context directory has at that path. So the entry `Dockerfile` at the
top of the context directory is left out, a file or a directory with all it
holds, and nothing else is: a file named `Dockerfile` in a subdirectory is
kept, and so is a dockerfile such as `Dockerfile.base` under its own name. -/
theorem setup_workdir_files (env : Env) (hist : List Event) (s : State) (seq : SubSequence)
    (p : TrustedFilePath) (content : String)
    (hseq : s.bob.nextSubSequence = some seq)
    (hp : env.Sanitize
      (hist ++ [Event.NewTrustedFilePath seq.Metadata.Dockerfile s.bob.contextDir none])
      seq.Metadata.Dockerfile s.bob.contextDir = p)
    (hok : p.State = TrustedFilePathState.OK)
    (hempty : ∀ rel, s.fs (cleanPath s.bob.workdir ++ rel) = none)
    (hexists : s.fs (cleanPath (p.Top ++ "/" ++ seq.Metadata.Dockerfile)) = some content)
    (herr : (setup env hist s).err = none) :
    ∀ rel, (setup env hist s).state.fs (cleanPath s.bob.workdir ++ rel) =
      if rel = ["Dockerfile"] then some content
      else
        match rel with
        | [] => none
        | first :: _ =>
          if first = "Dockerfile" then none else s.fs (cleanPath p.Top ++ rel) := by
  unfold setup at herr ⊢
  rw [hseq] at herr ⊢
  simp only at herr ⊢
  split at herr
  · simp at herr
  · rw [hp] at herr ⊢
    simp only [hok, ne_eq, not_true_eq_false, if_false] at herr ⊢
    unfold setupFiles at herr ⊢
    simp only at herr ⊢
    split at herr
    · simp at herr
    · split at herr
      · simp at herr
      · split at herr
        · simp at herr
        · intro rel
          have hsrc : untarFiles (tarFiles s.fs (cleanPath p.Top) ["Dockerfile"]) s.fs
              (cleanPath s.bob.workdir) (cleanPath (p.Top ++ "/" ++ seq.Metadata.Dockerfile)) =
              some content := by
            unfold untarFiles
            cases hrel : relativeTo (cleanPath s.bob.workdir)
                (cleanPath (p.Top ++ "/" ++ seq.Metadata.Dockerfile)) with
            | none => exact hexists
            | some r =>
              have := relativeTo_some _ _ _ hrel
              rw [this, hempty] at hexists
              simp at hexists
          simp only [cpFile, hsrc, cleanPath_dockerfile, List.append_cancel_left_eq]
          by_cases hd : rel = ["Dockerfile"]
          · simp [hd]
          · simp only [hd, if_false]
            unfold untarFiles
            rw [relativeTo_append]
            simp only [tarFiles, hempty, List.mem_singleton]
            cases rel with
            | nil => rfl
            | cons first more =>
              simp only
              split
              · rename_i c hc
                split at hc
                · simp at hc
                · rename_i hne
                  simp [hne, hc]
              · rename_i hc
                split at hc
                · rename_i heq
                  simp [heq]
                · rename_i hne
                  simp [hne, hc]

/-- The setup of `base`: the workdir gets `Dockerfile` with the content of
`Dockerfile.base`, and the other files of the context directory. -/
theorem setup_workdir_files_witness :
    (demoSetupState demoBase).bob.nextSubSequence = some demoBase ∧
    TrustedFilePathState.OK = TrustedFilePathState.OK ∧
    (∀ rel, (demoSetupState demoBase).fs (cleanPath "/tmp/bob0" ++ rel) = none) ∧
    (demoSetupState demoBase).fs (cleanPath ("/ctx" ++ "/" ++ "Dockerfile.base")) =
      some "FROM scratch" ∧
    (setup demoEnv [] (demoSetupState demoBase)).err = none ∧
    (∀ rel, (setup demoEnv [] (demoSetupState demoBase)).state.fs (cleanPath "/tmp/bob0" ++ rel) =
      if rel = ["Dockerfile"] then some "FROM scratch"
      else
        match rel with
        | [] => none
        | first :: _ =>
          if first = "Dockerfile" then none
          else (demoSetupState demoBase).fs (cleanPath "/ctx" ++ rel)) :=
  ⟨rfl, rfl, fun _ => rfl, by decide, by decide,
    setup_workdir_files demoEnv [] (demoSetupState demoBase) demoBase
      { State := TrustedFilePathState.OK, Error := none, Top := "/ctx" } "FROM scratch"
      rfl rfl rfl (fun _ => rfl) (by decide) (by decide)⟩

/-- C7: when no call of `cleanWorkdir` or `setup` of a run returns an error and
no command returns an error, `BuildCommandSequence` returns no error, has run
every command of every SubSequence in declaration order and, with a backend
attached, has looked up the temporary tag of every SubSequence in turn,
whatever the lookups and the removals returned: nothing is assumed of them. -/
theorem BuildCommandSequence_cleanup_never_fatal (env : Env) (hist : List Event)
    (commandSequence : CommandSequence) (s : State)
    (hsetup : ∀ ev ∈ (BuildCommandSequence env hist commandSequence s).events,
      ev.setupError = none)
    (hcmd : ∀ ev ∈ (BuildCommandSequence env hist commandSequence s).events,
      ev.commandError = none) :
    (BuildCommandSequence env hist commandSequence s).err = none ∧
      ranCommands (BuildCommandSequence env hist commandSequence s).events =
        declaredCommands commandSequence.Commands ∧
      lookedUp (BuildCommandSequence env hist commandSequence s).events =
        (match s.bob.dockerClient with
          | none => []
          | some _ => declaredPatterns commandSequence.Commands) := by
  have hq := quiet_of_no_error _ hsetup (fun ev hev => by
    rw [hcmd ev hev]
    rfl)
  have herr := outcome_quiet (buildSubSequences_outcome env commandSequence.Commands hist s) hq
  exact ⟨herr, buildSubSequences_ran env commandSequence.Commands hist s herr⟩

/-- The lookup of the temporary tag fails for `base` and the removal fails for
`app`: both SubSequences are processed and the run returns no error. -/
theorem BuildCommandSequence_cleanup_never_fatal_witness :
    (∀ ev ∈ (BuildCommandSequence cleanupFailsEnv [] demoSequence demoState).events,
      ev.setupError = none) ∧
    (∀ ev ∈ (BuildCommandSequence cleanupFailsEnv [] demoSequence demoState).events,
      ev.commandError = none) ∧
    Event.LatestImageByRegex ":0b5e$" { ID := "", RepoTags := [], Created := 0 }
        (some (Err.other "no such image")) ∈
      (BuildCommandSequence cleanupFailsEnv [] demoSequence demoState).events ∧
    Event.RemoveImage "quay.io/app:7d6f" (some (Err.other "conflict")) ∈
      (BuildCommandSequence cleanupFailsEnv [] demoSequence demoState).events ∧
    ((BuildCommandSequence cleanupFailsEnv [] demoSequence demoState).err = none ∧
      ranCommands (BuildCommandSequence cleanupFailsEnv [] demoSequence demoState).events =
        declaredCommands demoSequence.Commands ∧
      lookedUp (BuildCommandSequence cleanupFailsEnv [] demoSequence demoState).events =
        [":0b5e$", ":7d6f$"]) :=
  ⟨by decide, by decide, by decide, by decide,
    BuildCommandSequence_cleanup_never_fatal cleanupFailsEnv [] demoSequence demoState
      (by decide) (by decide)⟩

/-- C8: `NewTag(v).Evaluate(top)` is the branch of `top` for `git:branch`, the
commit hash of `top` for `git:rev` and `git:sha`, the described revision of
`top` for `git:short` and `git:tag`, each with one query to the package `git`,
and `v` itself, with no query, for every other `v`. -/
theorem Evaluate_cases (git : Git) (v top : String) :
    (NewTag v).Evaluate git top =
      if v = "git:branch" then (git.Branch top, [GitQuery.Branch top])
      else if v = "git:rev" ∨ v = "git:sha" then (git.Sha top, [GitQuery.Sha top])
      else if v = "git:short" ∨ v = "git:tag" then (git.Tag top, [GitQuery.Tag top])
      else (v, []) := by
  unfold tag.Evaluate NewTag
  simp only
  split <;> simp_all

/-- C9: `attemptToDeleteTemporaryUUIDTag` makes at most one `RemoveImage` call;
the tag it removes is the first tag of the image the lookup returned for which
`regexp.MatchString` with the pattern `:uuid$` answers true (it answers false
for every tag before it), and a backend is attached; when `uuid` is made of
hexadecimal digits and dashes, and `MatchString` does on a literal followed by
`$` what Go's does, a removed tag ends in `:uuid`; when no tag of the image
matches, no tag is removed; without backend, no call is made at all. -/
theorem attemptToDeleteTemporaryUUIDTag_removes_first_match (env : Env) (hist : List Event)
    (bob : Builder) (uuid : String) :
    (removedTags (attemptToDeleteTemporaryUUIDTag env hist bob uuid)).length ≤ 1 ∧
    (∀ tag ∈ removedTags (attemptToDeleteTemporaryUUIDTag env hist bob uuid),
      bob.dockerClient ≠ none ∧
      ∃ pre post,
        (env.LatestImageByRegex hist (":" ++ uuid ++ "$")).1.RepoTags = pre ++ tag :: post ∧
        env.MatchString (":" ++ uuid ++ "$") tag = Except.ok true ∧
        ∀ t ∈ pre, env.MatchString (":" ++ uuid ++ "$") t = Except.ok false) ∧
    (isUUID uuid = true → MatchesLiteralAtEnd env.MatchString →
      ∀ tag ∈ removedTags (attemptToDeleteTemporaryUUIDTag env hist bob uuid),
        (":" ++ uuid).data <:+ tag.data) ∧
    ((∀ t ∈ (env.LatestImageByRegex hist (":" ++ uuid ++ "$")).1.RepoTags,
        env.MatchString (":" ++ uuid ++ "$") t ≠ Except.ok true) →
      removedTags (attemptToDeleteTemporaryUUIDTag env hist bob uuid) = []) ∧
    (bob.dockerClient = none → attemptToDeleteTemporaryUUIDTag env hist bob uuid = []) := by
  have key : ∀ tag ∈ removedTags (attemptToDeleteTemporaryUUIDTag env hist bob uuid),
      removedTags (attemptToDeleteTemporaryUUIDTag env hist bob uuid) = [tag] ∧
      bob.dockerClient ≠ none ∧
      ∃ pre post,
        (env.LatestImageByRegex hist (":" ++ uuid ++ "$")).1.RepoTags = pre ++ tag :: post ∧
        env.MatchString (":" ++ uuid ++ "$") tag = Except.ok true ∧
        ∀ t ∈ pre, env.MatchString (":" ++ uuid ++ "$") t = Except.ok false := by
    intro tag htag
    unfold attemptToDeleteTemporaryUUIDTag at htag ⊢
    split at htag
    · simp [removedTags] at htag
    · rename_i c hc
      simp only [removedTags] at htag ⊢
      rcases deleteFirstMatch_spec env
        (hist ++ [Event.LatestImageByRegex (":" ++ uuid ++ "$")
          (env.LatestImageByRegex hist (":" ++ uuid ++ "$")).1
          (env.LatestImageByRegex hist (":" ++ uuid ++ "$")).2]) (":" ++ uuid ++ "$")
        (env.LatestImageByRegex hist (":" ++ uuid ++ "$")).1.RepoTags with h0 | ⟨pre, t, post, h1, h2, h3, h4⟩
      · rw [h0] at htag
        simp at htag
      · rw [h2] at htag ⊢
        simp only [List.mem_singleton] at htag
        subst htag
        exact ⟨rfl, by simp [hc], pre, post, h1, h3, h4⟩
  refine ⟨?_, fun tag htag => (key tag htag).2, ?_, ?_, ?_⟩
  · cases hr : removedTags (attemptToDeleteTemporaryUUIDTag env hist bob uuid) with
    | nil => simp
    | cons tag rest =>
      have := (key tag (by simp [hr])).1
      rw [hr] at this
      simp only [List.cons.injEq, true_and] at this
      simp [this]
  · intro hu hm tag htag
    obtain ⟨_, _, pre, post, _, hmatch, _⟩ := key tag htag
    have hlit := hm (":" ++ uuid) tag (isLiteral_of_isUUID uuid hu)
    rw [hlit] at hmatch
    simpa using hmatch
  · intro hno
    cases hr : removedTags (attemptToDeleteTemporaryUUIDTag env hist bob uuid) with
    | nil => rfl
    | cons tag rest =>
      obtain ⟨_, _, pre, post, htags, hmatch, _⟩ := key tag (by simp [hr])
      exact absurd hmatch (hno tag (by simp [htags]))
  · intro hnone
    simp [attemptToDeleteTemporaryUUIDTag, hnone]

/-- The image carries `quay.io/app:v1` and `quay.io/app:0b5e`: the second is
removed, and it ends in `:0b5e`. -/
theorem attemptToDeleteTemporaryUUIDTag_removes_first_match_witness :
    isUUID "0b5e" = true ∧
    removedTags (attemptToDeleteTemporaryUUIDTag demoEnv [] demoBuilder "0b5e") =
      ["quay.io/app:0b5e"] ∧
    (":" ++ "0b5e").data <:+ ("quay.io/app:0b5e" : String).data :=
  ⟨by decide, by decide,
    (attemptToDeleteTemporaryUUIDTag_removes_first_match demoEnv [] demoBuilder "0b5e").2.2.1
      (by decide) demoEnv_matchString "quay.io/app:0b5e" (by decide)⟩

/-- C10: for in-range `i` and `j`, `Less(i, j)` is `s[i].Created > s[j].Created`;
`Less` is irreflexive, asymmetric and transitive, and being unordered by it
both ways is transitive; so a slice with no pair `i < j` such that `Less(j, i)`
has `Created` non-increasing: the newest image first. -/
theorem Less_newest_first (s : APIImagesSlice) :
    (∀ i j (hi : i < APIImagesSlice.Len s) (hj : j < APIImagesSlice.Len s),
      APIImagesSlice.Less s i j =
        some (decide ((s.get ⟨i, hi⟩).Created > (s.get ⟨j, hj⟩).Created))) ∧
    (∀ i, APIImagesSlice.Less s i i ≠ some true) ∧
    (∀ i j, APIImagesSlice.Less s i j = some true → APIImagesSlice.Less s j i = some false) ∧
    (∀ i j k, APIImagesSlice.Less s i j = some true → APIImagesSlice.Less s j k = some true →
      APIImagesSlice.Less s i k = some true) ∧
    (∀ i j k, APIImagesSlice.Less s i j = some false → APIImagesSlice.Less s j i = some false →
      APIImagesSlice.Less s j k = some false → APIImagesSlice.Less s k j = some false →
      APIImagesSlice.Less s i k = some false ∧ APIImagesSlice.Less s k i = some false) ∧
    ((∀ i j, i < j → j < APIImagesSlice.Len s → APIImagesSlice.Less s j i ≠ some true) →
      ∀ i j (hij : i < j) (hj : j < APIImagesSlice.Len s),
        (s.get ⟨j, hj⟩).Created ≤ (s.get ⟨i, lt_trans hij hj⟩).Created) := by
  refine ⟨fun i j hi hj => less_eq s i j hi hj, ?_, ?_, ?_, ?_, ?_⟩
  · intro i h
    obtain ⟨hi, _, h⟩ := (less_true_iff s i i).1 h
    exact lt_irrefl _ h
  · intro i j h
    obtain ⟨hi, hj, h⟩ := (less_true_iff s i j).1 h
    exact (less_false_iff s j i).2 ⟨hj, hi, le_of_lt h⟩
  · intro i j k h1 h2
    obtain ⟨hi, hj, h1⟩ := (less_true_iff s i j).1 h1
    obtain ⟨_, hk, h2⟩ := (less_true_iff s j k).1 h2
    exact (less_true_iff s i k).2 ⟨hi, hk, lt_trans h2 h1⟩
  · intro i j k h1 h2 h3 h4
    obtain ⟨hi, hj, h1⟩ := (less_false_iff s i j).1 h1
    obtain ⟨_, _, h2⟩ := (less_false_iff s j i).1 h2
    obtain ⟨_, hk, h3⟩ := (less_false_iff s j k).1 h3
    obtain ⟨_, _, h4⟩ := (less_false_iff s k j).1 h4
    exact ⟨(less_false_iff s i k).2 ⟨hi, hk, le_trans h1 h3⟩,
      (less_false_iff s k i).2 ⟨hk, hi, le_trans h4 h2⟩⟩
  · intro hsorted i j hij hj
    have h := hsorted i j hij hj
    rw [less_eq s j i hj (lt_trans hij hj)] at h
    simpa using h

/-- Three images: the one created at 30 is before the one created at 20. -/
theorem Less_newest_first_witness :
    APIImagesSlice.Less demoImages 1 0 = some true ∧
    APIImagesSlice.Less demoImages 0 2 = some true ∧
    APIImagesSlice.Less demoImages 1 2 = some true :=
  ⟨by decide, by decide,
    (Less_newest_first demoImages).2.2.2.1 1 0 2 (by decide) (by decide)⟩

end BuilderCore
